import Mathlib

/-!
# Verification of the Captain orchestrator (`captain.py`)

A shallow embedding of the Captain's core state machine: the three
persistent JSON stores (`crew`, `chores`, `users`), the scheduler
(`try_assign_pending`), the sailor lifecycle endpoints (`prereg`,
`sailor_register`, `sailor_awake`, `sailor_report`), chore submission and
cancellation (`user_chore`, `user_cancel`, `user_upsert`), the duration
parser `_parse_max_time`, and one iteration of the background
reconciliation loop `_cleanup_loop`.

Modelling conventions:
* Python dicts (insertion ordered) become association lists
  `List (String × α)`; updating an existing key keeps its position,
  inserting a fresh key appends, `pop` removes.
* Python's unbounded ints become `Int` where the code can go negative
  (the `used_cpus`/`used_gpus` counters, durations) and `Nat` for
  timestamps and payload counts.
* Outbound HTTP is externalized: the launch POST of the assignment pass is
  an oracle `disp : String → Bool` (`true` = the sailor accepted the
  chore), and best-effort cancel POSTs are returned as a list of emitted
  `NetPost` events (the code ignores their outcome).
* Persisted snapshots coincide with the returned state; each endpoint is
  a pure transition on the `State` record.
-/

namespace Captain

/-- One entry of a sailor's `gpus` list (`{type, vram}` in the JSON). -/
structure Gpu where
  gtype : String
  vram : Nat
deriving Repr, DecidableEq

/-- A crew record as stored in `crew.json`.  `port` is optional because
`preregister_sailor` writes a record without a `port` key; readers default
it to 8001.  `used_cpus`/`used_gpus` are `Int` because the rollback in
`try_assign_pending` subtracts without clamping. -/
structure Sailor where
  name : String
  ip : String
  port : Option Nat
  services : List String
  cpus : Nat
  gpus : List Gpu
  ram : Nat
  used_cpus : Int
  used_gpus : Int
  last_seen : Nat
  status : String
  max_time : Option String
deriving Repr, DecidableEq

/-- The `ressources` sub-object of a chore request. -/
structure Ressources where
  cpus : Nat
  gpus : Nat
deriving Repr, DecidableEq

/-- A chore record as stored in `chores.json`.  Fields the code writes
only on some paths are `Option`; `end_` models the JSON key `end`
(a Lean keyword).  `terminated_at` is only ever read (as a fallback in the
TTL purge), never written, by `captain.py`. -/
structure Chore where
  chore_id : String
  script : String
  service : Option String
  ressources : Ressources
  sailor : Option String
  owner : Nat
  status : String
  start : Nat
  reason : Option String
  assigned_at : Option Nat
  run_start : Option Nat
  cancel_requested_at : Option Nat
  cancel_source : Option String
  end_ : Option Nat
  terminated_at : Option Nat
  exit_code : Option Int
deriving Repr, DecidableEq

/-- A user record as stored in `users.json` (keyed by the string uid). -/
structure UserRec where
  uid : String
  name : Option String
  time_limit : Option String
  chores_limit : Option Int
  notes : Option String
deriving Repr, DecidableEq

/-- The Captain's three persistent stores. -/
structure State where
  crew : List (String × Sailor)
  chores : List (String × Chore)
  users : List (String × UserRec)
deriving Repr, DecidableEq

/-- A best-effort cancel POST emitted to a sailor
(`POST http://ip:port/captain_cancels {chore_id}`). -/
structure NetPost where
  ip : String
  port : Nat
  chore_id : String
deriving Repr, DecidableEq

/-- Result of an endpoint call: `ok` or an HTTP error status. -/
inductive ApiResult where
  | ok
  | err (code : Nat)
deriving Repr, DecidableEq

/-! ## Association-list stores (Python dict semantics) -/

/-- `m.get(k)`: first binding of `k`. -/
def lookupS {α : Type} : List (String × α) → String → Option α
  | [], _ => none
  | (k', v) :: rest, k => if k' = k then some v else lookupS rest k

/-- `m[k] = v`: replace in place if present (insertion order kept),
append if absent. -/
def insertS {α : Type} : List (String × α) → String → α → List (String × α)
  | [], k, v => [(k, v)]
  | (k', v') :: rest, k, v =>
    if k' = k then (k, v) :: rest else (k', v') :: insertS rest k v

/-- `m.pop(k, None)`: remove the binding of `k` if present. -/
def eraseS {α : Type} : List (String × α) → String → List (String × α)
  | [], _ => []
  | (k', v') :: rest, k => if k' = k then rest else (k', v') :: eraseS rest k

/-! ## Python truthiness helpers -/

/-- `x or b` for an optional int field where `0` is falsy
(e.g. `chore.get("run_start") or ...`). -/
def orNat (a : Option Nat) (b : Nat) : Nat :=
  match a with
  | none => b
  | some n => if n = 0 then b else n

/-- `x or d` for an optional string where `""` is falsy. -/
def orStr (a : Option String) (d : String) : String :=
  match a with
  | none => d
  | some s => if s = "" then d else s

/-- `not chore.get("reason")`: absent or empty string. -/
def reasonEmpty (r : Option String) : Bool :=
  match r with
  | none => true
  | some s => s = ""

/-- `int(chore.get("run_start") or chore.get("assigned_at") or
chore.get("start") or 0)`: the reference timestamp T0 of a chore. -/
def choreT0 (c : Chore) : Nat :=
  orNat c.run_start (orNat c.assigned_at c.start)

/-- Same chain but defaulting to `now`
(the sort key of the time-budget pass, and the backfill estimate). -/
def choreT0Key (now : Nat) (c : Chore) : Nat :=
  orNat c.run_start (orNat c.assigned_at (if c.start = 0 then now else c.start))

/-! ## The duration parser `_parse_max_time`

Python string primitives (`str.split`, `int`) are modelled on `List Char`.
-/

/-- `s.split(sep, 1)` when `sep` occurs in `s`; `none` when it does not
(`sep in s` is `(pySplitOnce sep s).isSome`). -/
def pySplitOnce (sep : Char) : List Char → Option (List Char × List Char)
  | [] => none
  | c :: rest =>
    if c = sep then some ([], rest)
    else
      match pySplitOnce sep rest with
      | none => none
      | some (a, b) => some (c :: a, b)

/-- `s.split(sep)` with an explicit separator: no collapsing, so
`"".split(":") == [""]` and `"a::b".split(":") == ["a","","b"]`. -/
def pySplitAll (sep : Char) : List Char → List (List Char)
  | [] => [[]]
  | c :: rest =>
    if c = sep then [] :: pySplitAll sep rest
    else
      match pySplitAll sep rest with
      | [] => [[c]]
      | a :: more => (c :: a) :: more

/-- Python whitespace stripped by `int()` (ASCII subset). -/
def isPyWs (c : Char) : Bool :=
  c = ' ' || c = '\t' || c = '\n' || c = '\r' || c = '\x0b' || c = '\x0c'

/-- `s.strip()` on a char list. -/
def stripWs (cs : List Char) : List Char :=
  ((cs.dropWhile isPyWs).reverse.dropWhile isPyWs).reverse

/-- `str.lower()` modelled on the char list (ASCII case mapping; every
status string the code lowercases is ASCII). -/
def pyLower (s : String) : String := ⟨s.data.map Char.toLower⟩

/-- `str.strip().lower()` as used by the chores_limit counting. -/
def pyStripLower (s : String) : String := ⟨(stripWs s.data).map Char.toLower⟩


/-- Digit run with Python's single-underscore-between-digits rule,
accumulating the value; fails on a misplaced underscore or non-digit. -/
def digitsCore (acc : Nat) : List Char → Option Nat
  | [] => some acc
  | c :: rest =>
    if c.isDigit then digitsCore (acc * 10 + (c.toNat - 48)) rest
    else if c = '_' then
      match rest with
      | [] => none
      | d :: _ => if d.isDigit then digitsCore acc rest else none
    else none

/-- A digit run must start with a digit. -/
def digitsStart : List Char → Option Nat
  | [] => none
  | c :: rest => if c.isDigit then digitsCore (c.toNat - 48) rest else none

/-- Python `int(x)` on a string: strip whitespace, optional sign, decimal
digits (with single underscores between digits); `none` when `int` would
raise `ValueError`. -/
def pyIntChars (cs : List Char) : Option Int :=
  match stripWs cs with
  | '+' :: rest => (digitsStart rest).map (fun n => (n : Int))
  | '-' :: rest => (digitsStart rest).map (fun n => -(n : Int))
  | t => (digitsStart t).map (fun n => (n : Int))

/-- `[int(x) for x in fields]`, failing if any `int` raises. -/
def allInts : List (List Char) → Option (List Int)
  | [] => some []
  | f :: fs =>
    match pyIntChars f, allInts fs with
    | some v, some vs => some (v :: vs)
    | _, _ => none

/-- Body of `_parse_max_time` on the characters of a non-`None` string:
optionally split off a day part at the first `-`, split the rest on `:`,
parse every field as an int, left-pad the field list to three entries with
zeros (`while len(parts) < 3: parts.insert(0, 0)`), and combine the last
three as `days*86400 + hh*3600 + mm*60 + ss`; any `int` failure yields 0. -/
def parseChars (cs : List Char) : Int :=
  if cs = [] then 0
  else
    let dr : Option Int × List Char :=
      match pySplitOnce '-' cs with
      | some (d, r) => (pyIntChars d, r)
      | none => (some 0, cs)
    match dr.1 with
    | none => 0
    | some days =>
      match allInts (pySplitAll ':' dr.2) with
      | none => 0
      | some parts =>
        let padded := List.replicate (3 - parts.length) 0 ++ parts
        match padded.reverse with
        | ss :: mm :: hh :: _ => days * 86400 + hh * 3600 + mm * 60 + ss
        | _ => 0

/-- `_parse_max_time(s)`: parse a duration string (`DD-hh:mm:ss` or
`hh:mm:ss`-like) into seconds; `0` on missing or unparseable input. -/
def _parse_max_time (s : Option String) : Int :=
  match s with
  | none => 0
  | some str => parseChars str.data

/-! ## Status sets and scheduling -/

/-- `TERMINAL_STATUSES` from `captain.py`. -/
def TERMINAL_STATUSES : List String :=
  ["done", "failed", "canceled", "cancelled"]

/-- `ACTIVE_STATUSES` from `captain.py`. -/
def ACTIVE_STATUSES : List String :=
  ["pending", "assigned", "running", "cancel_requested"]

/-- Default TTLs (`CAPTAIN_CLEANUP_TTL`, `CAPTAIN_CANCEL_REQUESTED_TTL`
with their default environment values). -/
def CAPTAIN_CLEANUP_TTL : Nat := 120

def CAPTAIN_CANCEL_REQUESTED_TTL : Nat := 300

/-- The liveness override inside `eligible_sailors`: a sailor whose
`last_seen` is more than 10 s old counts as `down` regardless of its
stored status. -/
def aliveStatus (now : Nat) (s : Sailor) : String :=
  if now - s.last_seen > 10 then "down" else s.status

/-- `if service:` — a `None` or empty requested service disables the
service filter; otherwise the sailor's services list must contain it. -/
def serviceMatch (service : Option String) (s : Sailor) : Bool :=
  match service with
  | none => true
  | some sv => if sv = "" then true else s.services.contains sv

/-- `eligible_sailors(crew, service)`: sailors matching the service filter
whose (liveness-derived) status is not `down`, in crew order. -/
def eligible_sailors (now : Nat) (crew : List (String × Sailor))
    (service : Option String) : List Sailor :=
  crew.filterMap (fun p =>
    if serviceMatch service p.2 && aliveStatus now p.2 ≠ "down" then some p.2 else none)

/-- `need_cpus` of a chore: `int(ressources.get("cpus", 1) or 1)`
(a zero request is coerced to 1 by Python truthiness). -/
def needCpus (c : Chore) : Int :=
  if c.ressources.cpus = 0 then 1 else (c.ressources.cpus : Int)

/-- `need_gpus` of a chore: `int(ressources.get("gpus", 0) or 0)`. -/
def needGpus (c : Chore) : Int :=
  (c.ressources.gpus : Int)

/-- Free-capacity admission test for a candidate sailor
(`free_cpus >= need_cpus and free_gpus >= need_gpus and status in
("idle", "busy")`, with `free = max(total - used, 0)`). -/
def candOk (nc ng : Int) (s : Sailor) : Bool :=
  let free_cpus : Int := max ((s.cpus : Int) - s.used_cpus) 0
  let free_gpus : Int := max ((s.gpus.length : Int) - s.used_gpus) 0
  nc ≤ free_cpus && ng ≤ free_gpus && (s.status = "idle" || s.status = "busy")

/-- Headroom score `(free_cpus - need_cpus) + (free_gpus - need_gpus)`. -/
def candScore (nc ng : Int) (s : Sailor) : Int :=
  let free_cpus : Int := max ((s.cpus : Int) - s.used_cpus) 0
  let free_gpus : Int := max ((s.gpus.length : Int) - s.used_gpus) 0
  (free_cpus - nc) + (free_gpus - ng)

/-- The candidate loop of `try_assign_pending`: scan forward, keep the
first admissible sailor, replace only on a strictly greater score. -/
def pickBestAux (nc ng : Int) (best : Option (Int × Sailor)) :
    List Sailor → Option (Int × Sailor)
  | [] => best
  | s :: rest =>
    pickBestAux nc ng
      (if candOk nc ng s then
        match best with
        | none => some (candScore nc ng s, s)
        | some (bs, bsl) =>
          if candScore nc ng s > bs then some (candScore nc ng s, s) else some (bs, bsl)
      else best) rest

/-- `best` after the whole candidate scan (initially `None`). -/
def pickBest (nc ng : Int) (cands : List Sailor) : Option (Int × Sailor) :=
  pickBestAux nc ng none cands

/-- One iteration of the `for chore in chores.values()` loop of
`try_assign_pending` for the chore currently stored under `cid`:
skip chores that have a sailor or are not pending; otherwise pick the best
candidate, optimistically reserve, dispatch via the `disp` oracle, and on
dispatch failure revert the reservation and send the chore back to
`pending` with reason `sailor unreachable` (the sailor's `busy` status is
not reverted, matching the code).  With no candidate, stamp reason
`no available sailor` if it is not already set. -/
def assignStep (disp : String → Bool) (now : Nat)
    (st : List (String × Sailor) × List (String × Chore)) (cid : String) :
    List (String × Sailor) × List (String × Chore) :=
  let crew := st.1
  let chores := st.2
  match lookupS chores cid with
  | none => (crew, chores)
  | some chore =>
    if chore.sailor ≠ none then (crew, chores)
    else if chore.status ≠ "pending" then (crew, chores)
    else
      let nc := needCpus chore
      let ng := needGpus chore
      match pickBest nc ng (eligible_sailors now crew chore.service) with
      | some (_, sailor) =>
        let sname := sailor.name
        let sailor1 := { sailor with
          used_cpus := sailor.used_cpus + nc
          used_gpus := sailor.used_gpus + ng
          status := "busy" }
        let crew1 := insertS crew sname sailor1
        let chore1 := { chore with
          sailor := some sname
          status := "assigned"
          assigned_at := some now
          reason := none }
        let chores1 := insertS chores chore.chore_id chore1
        if disp cid then (crew1, chores1)
        else
          let chore2 := { chore1 with
            sailor := none
            status := "pending"
            reason := some "sailor unreachable" }
          let sailor2 := { sailor1 with
            used_cpus := sailor1.used_cpus - nc
            used_gpus := sailor1.used_gpus - ng }
          (insertS crew1 sname sailor2, insertS chores1 chore.chore_id chore2)
      | none =>
        if chore.status = "pending" && chore.reason ≠ some "no available sailor" then
          let chore' := { chore with status := "pending", reason := some "no available sailor" }
          (crew, insertS chores chore.chore_id chore')
        else (crew, chores)

/-- `try_assign_pending()`: fold the per-chore step over the chore ids in
store order, threading the in-memory crew and chores maps. -/
def try_assign_pending (disp : String → Bool) (now : Nat)
    (crew : List (String × Sailor)) (chores : List (String × Chore)) :
    List (String × Sailor) × List (String × Chore) :=
  (chores.map Prod.fst).foldl (assignStep disp now) (crew, chores)

/-! ## Sailor lifecycle endpoints -/

/-- `POST /prereg`: upsert the crew record.  The record is rebuilt from
scratch: services/ip come from the payload, capacity fields are carried
over from any existing record, used counters are zeroed, status is
`down`, `last_seen` 0; the new dict has no `port` key, and `max_time` is
kept only when the payload supplies a truthy one. -/
def preregister_sailor (name ip : String) (services : List String)
    (max_time : Option String) (st : State) : ApiResult × State :=
  if name = "" ∨ ip = "" then (ApiResult.err 400, st)
  else
    let old := lookupS st.crew name
    let srec : Sailor := {
      name := name
      ip := ip
      port := none
      services := services
      cpus := match old with | some s => s.cpus | none => 0
      gpus := match old with | some s => s.gpus | none => []
      ram := match old with | some s => s.ram | none => 0
      used_cpus := 0
      used_gpus := 0
      last_seen := 0
      status := "down"
      max_time := match max_time with
        | none => none
        | some m => if m = "" then none else some m }
    (ApiResult.ok, { st with crew := insertS st.crew name srec })

/-- `POST /sailor_register`: 403 unless preregistered; otherwise update
capacity and port from the payload, keep the record's existing `ip`
(`s.get("ip", ip)` only falls back to the payload when the key is absent,
which cannot happen for a preregistered record), stamp `last_seen`, zero
the used counters, set status `idle` (`max_time` is preserved), then run
an assignment pass. -/
def sailor_register (disp : String → Bool) (name ip : String) (port : Nat)
    (cpus : Nat) (gpus : List Gpu) (ram : Nat) (now : Nat) (st : State) :
    ApiResult × State :=
  if name = "" ∨ ip = "" then (ApiResult.err 400, st)
  else
    match lookupS st.crew name with
    | none => (ApiResult.err 403, st)
    | some s =>
      let srec := { s with
        name := name
        ip := s.ip
        port := some port
        cpus := cpus
        gpus := gpus
        ram := ram
        last_seen := now
        status := "idle"
        used_cpus := 0
        used_gpus := 0 }
      let crew1 := insertS st.crew name srec
      let (crew2, chores2) := try_assign_pending disp now crew1 st.chores
      (ApiResult.ok, { st with crew := crew2, chores := chores2 })

/-- `POST /sailor_awake`: 403 unless known; stamp `last_seen` and derive
status from the used counters (`full` when `used_cpus >= cpus`, `busy`
when positive, else `idle`). -/
def sailor_awake (name : String) (now : Nat) (st : State) : ApiResult × State :=
  if name = "" then (ApiResult.err 400, st)
  else
    match lookupS st.crew name with
    | none => (ApiResult.err 403, st)
    | some s =>
      let srec := { s with
        last_seen := now
        status :=
          if (s.cpus : Int) ≤ s.used_cpus then "full"
          else if 0 < s.used_cpus then "busy" else "idle" }
      (ApiResult.ok, { st with crew := insertS st.crew name srec })

/-- A crew record after releasing a chore's reservation: decrement the
used counters by the chore's requested amounts clamped at 0, and set the
status to `idle` when both drop to zero, else `busy` (this code is
duplicated verbatim between `sailor_report` and the TTL finalization of
`_cleanup_loop`). -/
def releasedSailor (s : Sailor) (nc ng : Int) : Sailor :=
  let uc := max 0 (s.used_cpus - nc)
  let ug := max 0 (s.used_gpus - ng)
  { s with
    used_cpus := uc
    used_gpus := ug
    status := if uc = 0 ∧ ug = 0 then "idle" else "busy" }

/-- The reason back-fill of a terminal `Canceled` report
(`cancel_source` mapping, default `"canceled"`). -/
def reportCancelReason (c : Chore) : Option String :=
  if pyLower c.status = "canceled" && reasonEmpty c.reason then
    some (match c.cancel_source with
      | some "sailor_max_time" => "exceeded time limit"
      | some "user_time_limit" => "exceeded user time limit"
      | some "user" => "canceled by user"
      | _ => "canceled")
  else c.reason

/-- `POST /sailor_report`: unknown chore is a no-op (`ok`).  A terminal
report (`Done`/`Canceled`/`Failed`, exact capitalization) releases the
chore's requested CPU/GPU on the crew record named by the *payload's*
`name` (clamped at 0), rederives that sailor's status, lowercases the
chore status, stamps `end` and `exit_code`, back-fills an empty reason on
`canceled`, then runs an assignment pass.  Any other status is lowercased
into the chore, with `run_start` stamped on the first `Running`. -/
def sailor_report (disp : String → Bool) (name chore_id statusP : String)
    (exit_code : Option Int) (now : Nat) (st : State) : ApiResult × State :=
  if chore_id = "" ∨ name = "" then (ApiResult.err 400, st)
  else
    match lookupS st.chores chore_id with
    | none => (ApiResult.ok, st)
    | some chore =>
      if statusP = "Done" ∨ statusP = "Canceled" ∨ statusP = "Failed" then
        let nc := needCpus chore
        let ng := needGpus chore
        let crew1 :=
          match lookupS st.crew name with
          | none => st.crew
          | some s => insertS st.crew name (releasedSailor s nc ng)
        let chore1 := { chore with
          status := pyLower statusP
          end_ := some now
          exit_code := exit_code }
        let chore2 := { chore1 with reason := reportCancelReason chore1 }
        let chores1 := insertS st.chores chore_id chore2
        let (crew2, chores2) := try_assign_pending disp now crew1 chores1
        (ApiResult.ok, { st with crew := crew2, chores := chores2 })
      else
        let chore1 := { chore with
          status := pyLower statusP
          run_start :=
            if pyLower statusP = "running" ∧ orNat chore.run_start 0 = 0
            then some now else chore.run_start }
        (ApiResult.ok, { st with chores := insertS st.chores chore_id chore1 })

/-! ## User-facing endpoints -/

/-- Whether a chore counts against its owner's `chores_limit`:
status (stripped, lowercased) must be active, and `cancel_requested`
chores older than `CAPTAIN_CANCEL_REQUESTED_TTL` (with the usual fallback
estimate for a missing timestamp) are not counted. -/
def countsActive (now : Nat) (c : Chore) : Bool :=
  let stt := pyStripLower c.status
  if ¬ ACTIVE_STATUSES.contains stt then false
  else if stt = "cancel_requested" then
    let crAt := orNat c.cancel_requested_at (choreT0Key now c)
    ¬ (crAt ≠ 0 ∧ (CAPTAIN_CANCEL_REQUESTED_TTL : Int) ≤ (now : Int) - crAt)
  else true

/-- The active-chore count of `owner` (`int(c.get("owner") or -1)`
comparison: a stored owner of 0 is read back as -1). -/
def activeCount (now : Nat) (owner : Nat) (chores : List (String × Chore)) : Nat :=
  (chores.filter (fun p =>
    (if p.2.owner = 0 then (-1 : Int) else (p.2.owner : Int)) = (owner : Int)
      && countsActive now p.2)).length

/-- `POST /user_chore`: submission.  `uid0` stands for `os.getuid()`
(used when the payload owner is falsy), `cid` for the freshly allocated
millisecond chore id.  Enforces `chores_limit` (403), persists the chore
as `pending` with reason `no available sailor`, then runs an assignment
pass. -/
def user_chore (disp : String → Bool) (uid0 : Nat) (script : String)
    (service : Option String) (rcpus rgpus : Nat) (owner0 : Nat) (now : Nat)
    (cid : String) (st : State) : ApiResult × State :=
  if script = "" then (ApiResult.err 400, st)
  else
    let owner := if owner0 = 0 then uid0 else owner0
    let cpus := if rcpus = 0 then 1 else rcpus
    let gpus := rgpus
    let limit : Int :=
      match lookupS st.users (toString owner) with
      | none => 0
      | some u =>
        match u.chores_limit with
        | none => 0
        | some n => if n = 0 then 0 else n
    if 0 < limit ∧ limit ≤ (activeCount now owner st.chores : Int) then
      (ApiResult.err 403, st)
    else
      let chore : Chore := {
        chore_id := cid
        script := script
        service := service
        ressources := { cpus := cpus, gpus := gpus }
        sailor := none
        owner := owner
        status := "pending"
        start := now
        reason := some "no available sailor"
        assigned_at := none
        run_start := none
        cancel_requested_at := none
        cancel_source := none
        end_ := none
        terminated_at := none
        exit_code := none }
      let chores1 := insertS st.chores cid chore
      let (crew2, chores2) := try_assign_pending disp now st.crew chores1
      (ApiResult.ok, { st with crew := crew2, chores := chores2 })

/-- `POST /user_cancel`: 404 on an unknown chore.  With a sailor assigned
*and present in the crew store*, persist `cancel_requested` (source
`user`, reason from the payload or `canceled by user`) first and then
best-effort POST cancel to that sailor; with a sailor assigned but absent
from the crew store nothing at all happens (still `ok`); with no sailor,
mark the chore `canceled` directly with `end=now`. -/
def user_cancel (chore_id : String) (reason : Option String) (now : Nat)
    (st : State) : ApiResult × State × List NetPost :=
  if chore_id = "" then (ApiResult.err 400, st, [])
  else
    match lookupS st.chores chore_id with
    | none => (ApiResult.err 404, st, [])
    | some chore =>
      match chore.sailor with
      | some sname =>
        (match lookupS st.crew sname with
        | some s =>
          let chore1 := { chore with
            status := "cancel_requested"
            reason := some (orStr reason "canceled by user")
            cancel_requested_at := some now
            cancel_source := some "user" }
          (ApiResult.ok, { st with chores := insertS st.chores chore_id chore1 },
            [{ ip := s.ip, port := s.port.getD 8001, chore_id := chore_id }])
        | none => (ApiResult.ok, st, []))
      | none =>
        let chore1 := { chore with
          status := "canceled"
          end_ := some now
          reason := some (orStr reason "canceled by user") }
        (ApiResult.ok, { st with chores := insertS st.chores chore_id chore1 }, [])

/-- `a` if present, else `b` (merge rule of `user_upsert`). -/
def optOr {α : Type} (a b : Option α) : Option α :=
  match a with
  | some x => some x
  | none => b

/-- `POST /user_upsert`: merge payload fields over the existing record
keyed by the string uid. -/
def user_upsert (uid : Nat) (uname time_limit : Option String)
    (chores_limit : Option Int) (notes : Option String) (st : State) :
    ApiResult × State :=
  let key := toString uid
  let old : UserRec :=
    match lookupS st.users key with
    | some u => u
    | none =>
      { uid := key, name := none, time_limit := none, chores_limit := none, notes := none }
  let urec : UserRec := {
    uid := key
    name := optOr uname old.name
    time_limit := optOr time_limit old.time_limit
    chores_limit := optOr chores_limit old.chores_limit
    notes := optOr notes old.notes }
  (ApiResult.ok, { st with users := insertS st.users key urec })

/-! ## The reconciliation loop (`_cleanup_loop`), one iteration -/

/-- Stable insertion of `x` into a list already sorted by `key`: `x` goes
before the first element with a strictly larger key, i.e. after all
earlier-origin elements of equal key (Python `sorted` stability). -/
def insByKey {α : Type} (key : α → Nat) (x : α) : List α → List α
  | [] => [x]
  | y :: ys => if key y < key x then y :: insByKey key x ys else x :: y :: ys

/-- Python `sorted(l, key=key)` (stable). -/
def pySorted {α : Type} (key : α → Nat) (l : List α) : List α :=
  l.foldr (insByKey key) []

/-- `by_owner.setdefault(owner, []).append(x)`: group in first-seen owner
order, appending within a group. -/
def addByOwner {β : Type} (m : List (Nat × List β)) (o : Nat) (x : β) :
    List (Nat × List β) :=
  match m with
  | [] => [(o, [x])]
  | (o', xs) :: rest =>
    if o' = o then (o, xs ++ [x]) :: rest else (o', xs) :: addByOwner rest o x

/-- The duration charged to a non-pending active chore:
`max(0, now - t0) if t0 else 0`. -/
def choreDur (now : Nat) (c : Chore) : Int :=
  let t0 := choreT0 c
  if t0 = 0 then 0 else max 0 ((now : Int) - t0)

/-- Build `by_owner`: active (non-terminal) chores grouped by owner, each
with its charged duration (0 for `pending`). -/
def buildByOwner (now : Nat) (chores : List (String × Chore)) :
    List (Nat × List (String × Chore × Int)) :=
  chores.foldl (fun m p =>
    let c := p.2
    if TERMINAL_STATUSES.contains (pyLower c.status) then m
    else
      let dur := if pyLower c.status = "pending" then 0 else choreDur now c
      addByOwner m c.owner (p.1, c, dur)) []

/-- The budget walk: keep a chore while `total + dur <= limit`
(accumulating), otherwise put it on the cancel list (without touching the
running total). -/
def walkBudget (limit : Int) : List (String × Chore × Int) → Int →
    List String × List (String × Chore)
  | [], _ => ([], [])
  | (cid, chore, dur) :: rest, total =>
    if total + dur ≤ limit then
      let r := walkBudget limit rest (total + dur)
      (cid :: r.1, r.2)
    else
      let r := walkBudget limit rest total
      (r.1, (cid, chore) :: r.2)

/-- Mark one over-budget chore `cancel_requested`
(source `user_time_limit`), persist, then "attempt to notify the sailor
if applicable" — the guard tests the status that was just overwritten to
`cancel_requested`, so it can never fire and no POST is emitted. -/
def markUserBudgetCancel (now : Nat) (crew : List (String × Sailor))
    (acc : List (String × Chore) × List NetPost) (pc : String × Chore) :
    List (String × Chore) × List NetPost :=
  let c1 := { pc.2 with
    status := "cancel_requested"
    reason := some "exceeded user time limit"
    cancel_requested_at := some now
    cancel_source := some "user_time_limit" }
  let chores1 := insertS acc.1 pc.1 c1
  if pyLower c1.status = "assigned" ∨ pyLower c1.status = "running" then
    match c1.sailor with
    | some sname =>
      let s := lookupS crew sname
      (chores1, acc.2 ++
        [{ ip := match s with | some x => x.ip | none => "127.0.0.1"
           port := match s with | some x => x.port.getD 8001 | none => 8001
           chore_id := pc.1 }])
    | none => (chores1, acc.2)
  else (chores1, acc.2)

/-- Pass (a) of the loop: per-user time budget.  For each owner with a
positive parsed `time_limit`, sort that owner's active chores by T0
(stable, oldest first), walk the budget, and mark the over-budget ones. -/
def cleanupUserBudget (now : Nat) (users : List (String × UserRec))
    (crew : List (String × Sailor)) (chores : List (String × Chore)) :
    List (String × Chore) × List NetPost :=
  (buildByOwner now chores).foldl (fun acc grp =>
    let limit :=
      match lookupS users (toString grp.1) with
      | some u => _parse_max_time u.time_limit
      | none => _parse_max_time none
    if limit ≤ 0 then acc
    else
      let sorted := pySorted (fun it => choreT0Key now it.2.1) grp.2
      let cancel := (walkBudget limit sorted 0).2
      cancel.foldl (markUserBudgetCancel now crew) acc) (chores, [])

/-- The reason back-fill used by TTL finalization (default
`canceled by timeout`). -/
def finalizeReason (c : Chore) : Option String :=
  if reasonEmpty c.reason then
    some (match c.cancel_source with
      | some "sailor_max_time" => "exceeded time limit"
      | some "user_time_limit" => "exceeded user time limit"
      | some "user" => "canceled by user"
      | _ => "canceled by timeout")
  else c.reason

/-- Pass (b) of the loop for one chore: enforce the assigned sailor's
`max_time` on a (per its entry `status`) non-terminal chore, marking it
`cancel_requested` (source `sailor_max_time`) and emitting the notify
POST.  Returns the possibly updated chore object, chores map and posts. -/
def maxTimeCheck (now : Nat) (crew : List (String × Sailor))
    (chores : List (String × Chore)) (posts : List NetPost)
    (cid : String) (c : Chore) (status : String) :
    Chore × List (String × Chore) × List NetPost :=
  if ¬ TERMINAL_STATUSES.contains status then
    match c.sailor with
    | some sname =>
      match lookupS crew sname with
      | some s =>
        let mts := _parse_max_time s.max_time
        if 0 < mts then
          let t0 := choreT0 c
          if t0 ≠ 0 ∧ mts < (now : Int) - t0 then
            let c1 := { c with
              status := "cancel_requested"
              reason := some "exceeded time limit"
              cancel_requested_at := some now
              cancel_source := some "sailor_max_time" }
            (c1, insertS chores cid c1, posts ++
              [{ ip := s.ip, port := s.port.getD 8001, chore_id := cid }])
          else (c, chores, posts)
        else (c, chores, posts)
      | none => (c, chores, posts)
    | none => (c, chores, posts)
  else (c, chores, posts)

/-- Pass (c) of the loop for one chore whose entry `status` is
`cancel_requested`: backfill a missing `cancel_requested_at` from the
best-known timestamp, and once it is `CAPTAIN_CANCEL_REQUESTED_TTL` old,
emit one more cancel POST, optimistically release the sailor's
reservation (clamped at 0), and finalize the chore as `canceled`. -/
def finalizeCancel (now : Nat) (crew : List (String × Sailor))
    (chores : List (String × Chore)) (posts : List NetPost)
    (cid : String) (c1 : Chore) (status : String) :
    List (String × Sailor) × List (String × Chore) × List NetPost :=
  if status = "cancel_requested" then
    let cr0 := orNat c1.cancel_requested_at 0
    let est := choreT0Key now c1
    let c2 := if cr0 = 0 then { c1 with cancel_requested_at := some est } else c1
    let chores2 := if cr0 = 0 then insertS chores cid c2 else chores
    let crAt := if cr0 = 0 then est else cr0
    if crAt ≠ 0 ∧ (CAPTAIN_CANCEL_REQUESTED_TTL : Int) ≤ (now : Int) - crAt then
      let freed :
          List (String × Sailor) × List NetPost :=
        match c2.sailor with
        | some sname =>
          match lookupS crew sname with
          | some s =>
            (insertS crew sname (releasedSailor s (needCpus c2) (needGpus c2)),
              posts ++ [{ ip := s.ip, port := s.port.getD 8001, chore_id := cid }])
          | none =>
            (crew, posts ++ [{ ip := "127.0.0.1", port := 8001, chore_id := cid }])
        | none => (crew, posts)
      let c3 := { c2 with
        status := "canceled"
        end_ := some now
        reason := finalizeReason c2 }
      (freed.1, insertS chores2 cid c3, freed.2)
    else (crew, chores2, posts)
  else (crew, chores, posts)

/-- Pass (d) of the loop for one chore whose entry `status` is terminal:
purge it once its `end` (fallback `terminated_at`) is `CAPTAIN_CLEANUP_TTL`
old. -/
def purgeCheck (now : Nat) (chores : List (String × Chore)) (cid : String)
    (c1 : Chore) (status : String) : List (String × Chore) :=
  if TERMINAL_STATUSES.contains status then
    let endTs := orNat c1.end_ (orNat c1.terminated_at 0)
    if endTs ≠ 0 ∧ (CAPTAIN_CLEANUP_TTL : Int) ≤ (now : Int) - endTs then
      eraseS chores cid
    else chores
  else chores

/-- Pass (b)+(c)+(d) of the loop for the chore currently stored under
`cid`.  `status` is read once at the top of the iteration, so a status
change made by an earlier branch of the same iteration is not seen by the
later branches (as in the code); pass (c) operates on the chore object as
mutated by pass (b), and the crew snapshot is only written by the
finalization's release. -/
def cleanupChoreStep (now : Nat)
    (acc : List (String × Sailor) × List (String × Chore) × List NetPost)
    (cid : String) :
    List (String × Sailor) × List (String × Chore) × List NetPost :=
  match lookupS acc.2.1 cid with
  | none => acc
  | some c =>
    let status := pyLower c.status
    let s1 := maxTimeCheck now acc.1 acc.2.1 acc.2.2 cid c status
    let s2 := finalizeCancel now acc.1 s1.2.1 s1.2.2 cid s1.1 status
    (s2.1, purgeCheck now s2.2.1 cid s1.1 status, s2.2.2)

/-- One iteration of `_cleanup_loop`: the per-user budget pass over the
loaded snapshot, then the per-chore pass over the (updated) chore ids in
store order. -/
def cleanup_iteration (now : Nat) (st : State) : State × List NetPost :=
  let p1 := cleanupUserBudget now st.users st.crew st.chores
  let chores1 := p1.1
  let r := (chores1.map Prod.fst).foldl (cleanupChoreStep now) (st.crew, chores1, p1.2)
  ({ st with crew := r.1, chores := r.2.1 }, r.2.2)

/-! ## Operation traces -/

/-- One Captain operation: an API call or a reconciliation-loop
iteration.  `disp` is the launch-POST oracle of the assignment pass the
operation triggers, `now` the wall-clock second at which it runs, and
`cid` on `submit` the freshly allocated chore id. -/
inductive Op where
  | prereg (name ip : String) (services : List String) (max_time : Option String)
  | register (disp : String → Bool) (name ip : String) (port cpus : Nat)
      (gpus : List Gpu) (ram : Nat) (now : Nat)
  | awake (name : String) (now : Nat)
  | report (disp : String → Bool) (name chore_id statusP : String)
      (exit_code : Option Int) (now : Nat)
  | submit (disp : String → Bool) (uid0 : Nat) (script : String)
      (service : Option String) (cpus gpus : Nat) (owner : Nat) (now : Nat)
      (cid : String)
  | cancel (chore_id : String) (reason : Option String) (now : Nat)
  | upsert (uid : Nat) (uname time_limit : Option String)
      (chores_limit : Option Int) (notes : Option String)
  | cleanup (now : Nat)

/-- The state transition of one operation (responses and emitted POSTs
discarded). -/
def applyOp (op : Op) (st : State) : State :=
  match op with
  | .prereg name ip services max_time => (preregister_sailor name ip services max_time st).2
  | .register disp name ip port cpus gpus ram now =>
    (sailor_register disp name ip port cpus gpus ram now st).2
  | .awake name now => (sailor_awake name now st).2
  | .report disp name chore_id statusP exit_code now =>
    (sailor_report disp name chore_id statusP exit_code now st).2
  | .submit disp uid0 script service cpus gpus owner now cid =>
    (user_chore disp uid0 script service cpus gpus owner now cid st).2
  | .cancel chore_id reason now => (user_cancel chore_id reason now st).2.1
  | .upsert uid uname time_limit chores_limit notes =>
    (user_upsert uid uname time_limit chores_limit notes st).2
  | .cleanup now => (cleanup_iteration now st).1

/-- The initial Captain state: three empty stores (fresh data directory). -/
def initState : State := { crew := [], chores := [], users := [] }

/-- Run a sequence of operations from the initial state. -/
def runOps (ops : List Op) : State :=
  ops.foldl (fun st op => applyOp op st) initState

/-! ## Store lemmas -/

theorem lookupS_mem {α : Type} {m : List (String × α)} {k : String} {v : α}
    (h : lookupS m k = some v) : (k, v) ∈ m := by
  induction m with
  | nil => simp [lookupS] at h
  | cons p rest ih =>
    rw [lookupS] at h
    obtain ⟨a, b⟩ := p
    by_cases hk : a = k
    · simp [hk] at h
      rw [hk, h]
      exact List.mem_cons_self _ _
    · simp [hk] at h
      exact List.mem_cons_of_mem _ (ih h)

theorem mem_insertS {α : Type} {m : List (String × α)} {k : String} {v : α}
    {p : String × α} (hp : p ∈ insertS m k v) : p ∈ m ∨ p = (k, v) := by
  induction m with
  | nil => simp [insertS] at hp; right; exact hp
  | cons q rest ih =>
    rw [insertS] at hp
    by_cases hk : q.1 = k
    · simp [hk] at hp
      rcases hp with h | h
      · right; simp [h]
      · left; simp [h]
    · simp [hk] at hp
      rcases hp with h | h
      · left; simp [h]
      · rcases ih h with h' | h'
        · left; simp [h']
        · right; exact h'

theorem mem_eraseS {α : Type} {m : List (String × α)} {k : String}
    {p : String × α} (hp : p ∈ eraseS m k) : p ∈ m := by
  induction m with
  | nil => simp [eraseS] at hp
  | cons q rest ih =>
    rw [eraseS] at hp
    by_cases hk : q.1 = k
    · simp [hk] at hp
      exact List.mem_cons_of_mem _ hp
    · simp [hk] at hp
      rcases hp with h | h
      · rw [h]; exact List.mem_cons_self _ _
      · exact List.mem_cons_of_mem _ (ih h)

theorem lookupS_insertS_self {α : Type} (m : List (String × α)) (k : String) (v : α) :
    lookupS (insertS m k v) k = some v := by
  induction m with
  | nil => simp [insertS, lookupS]
  | cons q rest ih =>
    rw [insertS]
    by_cases hk : q.1 = k
    · simp [hk, lookupS]
    · simp [hk, lookupS, ih]

theorem lookupS_insertS_ne {α : Type} (m : List (String × α)) (k k' : String) (v : α)
    (h : k ≠ k') : lookupS (insertS m k v) k' = lookupS m k' := by
  induction m with
  | nil => simp [insertS, lookupS, h]
  | cons q rest ih =>
    rw [insertS]
    by_cases hk : q.1 = k
    · simp [hk, lookupS, h]
    · simp [lookupS, hk, ih]

theorem lookupS_eraseS_ne {α : Type} (m : List (String × α)) (k k' : String)
    (h : k ≠ k') : lookupS (eraseS m k) k' = lookupS m k' := by
  induction m with
  | nil => simp [eraseS, lookupS]
  | cons q rest ih =>
    rw [eraseS]
    by_cases hk : q.1 = k
    · simp [hk, lookupS, h]
    · simp [lookupS, hk, ih]

/-! ## Claim C1: the capacity bound invariant -/

/-- The capacity bound of the spec for one sailor record:
`0 ≤ used_cpus ≤ cpus` and `0 ≤ used_gpus ≤ len(gpus)`. -/
def capOk (s : Sailor) : Prop :=
  0 ≤ s.used_cpus ∧ s.used_cpus ≤ (s.cpus : Int) ∧
    0 ≤ s.used_gpus ∧ s.used_gpus ≤ (s.gpus.length : Int)

/-- Every sailor of the crew store satisfies the capacity bound. -/
def CrewInv (crew : List (String × Sailor)) : Prop :=
  ∀ p ∈ crew, capOk p.2

theorem crewInv_insertS {crew : List (String × Sailor)} {k : String} {v : Sailor}
    (h : CrewInv crew) (hv : capOk v) : CrewInv (insertS crew k v) := by
  intro p hp
  rcases mem_insertS hp with h' | h'
  · exact h p h'
  · rw [h']; exact hv

theorem crewInv_lookup {crew : List (String × Sailor)} {k : String} {v : Sailor}
    (h : CrewInv crew) (hv : lookupS crew k = some v) : capOk v :=
  h (k, v) (lookupS_mem hv)

/-- The sailor returned by the candidate scan satisfies any property held
by all candidates, and passed the admission test. -/
theorem pickBestAux_spec (nc ng : Int) (Q : Sailor → Prop) :
    ∀ (l : List Sailor) (acc : Option (Int × Sailor)),
      (∀ s ∈ l, Q s) →
      (∀ x sc, acc = some (x, sc) → Q sc ∧ candOk nc ng sc = true) →
      ∀ x sc, pickBestAux nc ng acc l = some (x, sc) → Q sc ∧ candOk nc ng sc = true := by
  intro l
  induction l with
  | nil =>
    intro acc _ hacc x sc h
    exact hacc x sc h
  | cons s rest ih =>
    intro acc hl hacc x sc h
    simp only [pickBestAux] at h
    refine ih _ (fun t ht => hl t (List.mem_cons_of_mem _ ht)) ?_ x sc h
    intro y yc hy
    by_cases hck : candOk nc ng s = true
    · simp only [hck, if_true] at hy
      cases acc with
      | none =>
        simp only [Option.some.injEq, Prod.mk.injEq] at hy
        rw [← hy.2]
        exact ⟨hl s (List.mem_cons_self _ _), hck⟩
      | some p =>
        obtain ⟨bs, bsl⟩ := p
        by_cases hgt : candScore nc ng s > bs
        · simp only [hgt, if_true, Option.some.injEq, Prod.mk.injEq] at hy
          rw [← hy.2]
          exact ⟨hl s (List.mem_cons_self _ _), hck⟩
        · simp only [hgt, if_false, Option.some.injEq, Prod.mk.injEq] at hy
          rcases hacc bs bsl rfl with ⟨hQ, hC⟩
          rw [← hy.2]
          exact ⟨hQ, hC⟩
    · simp only [hck, if_false] at hy
      exact hacc y yc hy

/-- Sailors returned by `eligible_sailors` are values of the crew store. -/
theorem eligible_sailors_mem {now : Nat} {crew : List (String × Sailor)}
    {service : Option String} {s : Sailor}
    (h : s ∈ eligible_sailors now crew service) : ∃ k, (k, s) ∈ crew := by
  rw [eligible_sailors, List.mem_filterMap] at h
  obtain ⟨p, hp, hps⟩ := h
  have h2 : p.2 = s := by
    by_cases hc : (serviceMatch service p.2 && decide (aliveStatus now p.2 ≠ "down")) = true
    · simp only [hc, if_true, Option.some.injEq] at hps
      exact hps
    · simp only [hc, if_false] at hps
      exact absurd hps (by simp)
  exact ⟨p.1, by rw [← h2]; simpa using hp⟩

theorem needCpus_nonneg (c : Chore) : 0 ≤ needCpus c := by
  unfold needCpus
  split
  · omega
  · exact Int.natCast_nonneg _

theorem needGpus_nonneg (c : Chore) : 0 ≤ needGpus c := by
  unfold needGpus
  exact Int.natCast_nonneg _

theorem reserve_capOk {s : Sailor} (hs : capOk s) {nc ng : Int}
    (h0c : 0 ≤ nc) (h0g : 0 ≤ ng) (hc : candOk nc ng s = true) :
    capOk { s with used_cpus := s.used_cpus + nc, used_gpus := s.used_gpus + ng,
                   status := "busy" } := by
  simp only [candOk, Bool.and_eq_true, decide_eq_true_eq] at hc
  obtain ⟨⟨h1, h2⟩, -⟩ := hc
  obtain ⟨a1, a2, a3, a4⟩ := hs
  rw [max_eq_left (by omega : (0:Int) ≤ (s.cpus : Int) - s.used_cpus)] at h1
  rw [max_eq_left (by omega : (0:Int) ≤ (s.gpus.length : Int) - s.used_gpus)] at h2
  exact ⟨by simp; omega, by simp; omega, by simp; omega, by simp; omega⟩

theorem assignStep_crewInv (disp : String → Bool) (now : Nat)
    (st : List (String × Sailor) × List (String × Chore)) (cid : String)
    (h : CrewInv st.1) : CrewInv (assignStep disp now st cid).1 := by
  unfold assignStep
  dsimp only
  split
  · exact h
  next chore hl =>
    split
    · exact h
    split
    · exact h
    split
    next sc sailor hb =>
      have hq := pickBestAux_spec (needCpus chore) (needGpus chore)
        (fun s => ∃ k, (k, s) ∈ st.1)
        (eligible_sailors now st.1 chore.service) none
        (fun s hs => eligible_sailors_mem hs) (by intro x sc' hx; cases hx)
        sc sailor hb
      obtain ⟨⟨k, hk⟩, hcand⟩ := hq
      have hcap : capOk sailor := h (k, sailor) hk
      have hres := reserve_capOk hcap (needCpus_nonneg chore) (needGpus_nonneg chore) hcand
      split
      · exact crewInv_insertS h hres
      · apply crewInv_insertS (crewInv_insertS h hres)
        obtain ⟨a1, a2, a3, a4⟩ := hcap
        refine ⟨?_, ?_, ?_, ?_⟩ <;> simp <;> omega
    split
    · exact h
    · exact h

theorem foldl_assignStep_crewInv (disp : String → Bool) (now : Nat) :
    ∀ (ids : List String) (st : List (String × Sailor) × List (String × Chore)),
      CrewInv st.1 → CrewInv ((ids.foldl (assignStep disp now) st).1) := by
  intro ids
  induction ids with
  | nil => intro st h; exact h
  | cons i rest ih =>
    intro st h
    exact ih _ (assignStep_crewInv disp now st i h)

theorem try_assign_pending_crewInv (disp : String → Bool) (now : Nat)
    (crew : List (String × Sailor)) (chores : List (String × Chore))
    (h : CrewInv crew) : CrewInv (try_assign_pending disp now crew chores).1 :=
  foldl_assignStep_crewInv disp now _ (crew, chores) h

theorem release_capOk {s : Sailor} (hs : capOk s) (c : Chore) :
    capOk (releasedSailor s (needCpus c) (needGpus c)) := by
  have h0c := needCpus_nonneg c
  have h0g := needGpus_nonneg c
  obtain ⟨a1, a2, a3, a4⟩ := hs
  unfold releasedSailor
  refine ⟨?_, ?_, ?_, ?_⟩ <;> simp <;> omega

theorem finalizeCancel_crewInv (now : Nat) (crew : List (String × Sailor))
    (chores : List (String × Chore)) (posts : List NetPost) (cid : String)
    (c1 : Chore) (status : String) (h : CrewInv crew) :
    CrewInv (finalizeCancel now crew chores posts cid c1 status).1 := by
  unfold finalizeCancel
  dsimp only
  repeat' split
  all_goals try exact h
  all_goals
    rename_i s hsr
    exact crewInv_insertS h (release_capOk (crewInv_lookup h hsr) _)

theorem cleanupChoreStep_crewInv (now : Nat)
    (acc : List (String × Sailor) × List (String × Chore) × List NetPost)
    (cid : String) (h : CrewInv acc.1) :
    CrewInv (cleanupChoreStep now acc cid).1 := by
  unfold cleanupChoreStep
  dsimp only
  split
  · exact h
  · exact finalizeCancel_crewInv _ _ _ _ _ _ _ h


theorem applyOp_crewInv (op : Op) (st : State) (h : CrewInv st.crew) :
    CrewInv (applyOp op st).crew := by
  cases op with
  | prereg name ip services max_time =>
    unfold applyOp preregister_sailor
    dsimp only
    split
    · exact h
    · apply crewInv_insertS h
      exact ⟨le_refl 0, by dsimp; split <;> exact Int.natCast_nonneg _,
             le_refl 0, by dsimp; split <;> exact Int.natCast_nonneg _⟩
  | register disp name ip port cpus gpus ram now =>
    unfold applyOp sailor_register
    dsimp only
    split
    · exact h
    split
    · exact h
    next s hs =>
      exact try_assign_pending_crewInv disp now _ st.chores
        (crewInv_insertS h ⟨le_refl 0, Int.natCast_nonneg _, le_refl 0, Int.natCast_nonneg _⟩)
  | awake name now =>
    unfold applyOp sailor_awake
    dsimp only
    split
    · exact h
    split
    · exact h
    next s hs =>
      apply crewInv_insertS h
      obtain ⟨a1, a2, a3, a4⟩ := crewInv_lookup h hs
      exact ⟨a1, a2, a3, a4⟩
  | report disp name chore_id statusP exit_code now =>
    unfold applyOp sailor_report
    dsimp only
    split
    · exact h
    split
    · exact h
    next chore hc =>
      split
      · apply foldl_assignStep_crewInv
        dsimp only
        split
        · exact h
        next s hs => exact crewInv_insertS h (release_capOk (crewInv_lookup h hs) _)
      · exact h
  | submit disp uid0 script service cpus gpus owner now cid =>
    unfold applyOp user_chore
    dsimp only
    repeat' split
    all_goals
      first
      | exact h
      | exact try_assign_pending_crewInv disp now _ _ h
  | cancel chore_id reason now =>
    unfold applyOp user_cancel
    dsimp only
    split
    · exact h
    split
    · exact h
    next chore hc =>
      split
      · split
        · exact h
        · exact h
      · exact h
  | upsert uid uname time_limit chores_limit notes =>
    unfold applyOp user_upsert
    dsimp only
    exact h
  | cleanup now =>
    unfold applyOp cleanup_iteration
    dsimp only
    have : ∀ (ids : List String) acc, CrewInv acc.1 →
        CrewInv ((List.foldl (cleanupChoreStep now) acc ids).1) := by
      intro ids
      induction ids with
      | nil => intro acc ha; exact ha
      | cons i rest ih =>
        intro acc ha
        exact ih _ (cleanupChoreStep_crewInv now acc i ha)
    exact this _ _ h

/-- C1: for every sequence of Captain operations (prereg,
sailor_register, sailor_awake, sailor_report, chore submission with its
assignment pass, user_cancel, user_upsert, reconciliation-loop
iteration), every sailor record in the crew store satisfies
`0 ≤ used_cpus ≤ cpus` and `0 ≤ used_gpus ≤ |gpus|` in every state
reachable from the empty stores.  (The optimistic-reserve intermediate
state persisted inside a dispatch attempt equals the post-state of the
same pass with a succeeding oracle, so it is covered as well.) -/
theorem capacity_invariant (ops : List Op) : CrewInv (runOps ops).crew := by
  rw [runOps]
  have : ∀ (l : List Op) (st : State), CrewInv st.crew →
      CrewInv ((l.foldl (fun st op => applyOp op st) st).crew) := by
    intro l
    induction l with
    | nil => intro st h; exact h
    | cons o rest ih =>
      intro st h
      exact ih _ (applyOp_crewInv o st h)
  exact this ops initState (by intro p hp; cases hp)

/-- No chore is eligible for the assignment pass: each one either has a
sailor or is not `pending`. -/
def NoAssignable (chores : List (String × Chore)) : Prop :=
  ∀ p ∈ chores, p.2.sailor ≠ none ∨ p.2.status ≠ "pending"

instance (chores : List (String × Chore)) : Decidable (NoAssignable chores) := by
  unfold NoAssignable
  exact List.decidableBAll _ chores

theorem assignStep_id (disp : String → Bool) (now : Nat)
    (st : List (String × Sailor) × List (String × Chore)) (cid : String)
    (h : NoAssignable st.2) : assignStep disp now st cid = st := by
  obtain ⟨crw, chs⟩ := st
  unfold assignStep
  dsimp only
  split
  · rfl
  next c hl =>
    rcases h (cid, c) (lookupS_mem hl) with hs | hs
    · simp [hs]
    · simp [hs]

theorem try_assign_pending_id (disp : String → Bool) (now : Nat)
    (crew : List (String × Sailor)) (chores : List (String × Chore))
    (h : NoAssignable chores) :
    try_assign_pending disp now crew chores = (crew, chores) := by
  unfold try_assign_pending
  have : ∀ (ids : List String) (st : List (String × Sailor) × List (String × Chore)),
      NoAssignable st.2 → ids.foldl (assignStep disp now) st = st := by
    intro ids
    induction ids with
    | nil => intro st _; rfl
    | cons i rest ih =>
      intro st hst
      rw [List.foldl_cons, assignStep_id disp now st i hst]
      exact ih st hst
  exact this _ (crew, chores) h

theorem noAssignable_insert {chores : List (String × Chore)} {k : String} {c : Chore}
    (h : NoAssignable chores) (hc : c.sailor ≠ none ∨ c.status ≠ "pending") :
    NoAssignable (insertS chores k c) := by
  intro p hp
  rcases mem_insertS hp with h' | h'
  · exact h p h'
  · rw [h']; exact hc


/-- C6: when an assignment-pass dispatch fails (the launch POST to the
chosen sailor raises or returns an error status, `disp cid = false`), the
reservation is reverted — the chosen sailor's `used_cpus`/`used_gpus` are
back at their prior values — and the chore is set back to `pending` with
`sailor = none` and `reason = "sailor unreachable"`, with both stores
persisted (the state of this embedding is the persisted snapshot). -/
theorem rollback_on_dispatch_failure
    (disp : String → Bool) (now : Nat)
    (crew : List (String × Sailor)) (chores : List (String × Chore))
    (cid : String) (c : Chore) (sc : Int) (b : Sailor)
    (hc : lookupS chores cid = some c)
    (hsl : c.sailor = none)
    (hst : c.status = "pending")
    (hb : pickBest (needCpus c) (needGpus c) (eligible_sailors now crew c.service) =
      some (sc, b))
    (hd : disp cid = false) :
    (∃ b', lookupS (assignStep disp now (crew, chores) cid).1 b.name = some b' ∧
       b'.used_cpus = b.used_cpus ∧ b'.used_gpus = b.used_gpus) ∧
    lookupS (assignStep disp now (crew, chores) cid).2 c.chore_id =
      some { c with sailor := none, status := "pending",
                    reason := some "sailor unreachable", assigned_at := some now } := by
  unfold assignStep
  dsimp only
  rw [hc]
  simp only [hsl, hst, hb, hd, ne_eq, not_true_eq_false, if_false, ite_false,
    reduceIte, Bool.false_eq_true]
  constructor
  · refine ⟨_, lookupS_insertS_self _ _ _, ?_, ?_⟩ <;> simp
  · rw [lookupS_insertS_self]


/-- C9: a terminal `sailor_report` (`Done`/`Canceled`/`Failed`) on an
existing chore applies the used-CPU/GPU release and status recomputation
to the crew record named by the report payload's `name`, not to the
chore's recorded `sailor`: when the two differ, the payload-named
sailor's counters are decremented (clamped at 0) while the assigned
sailor's record is left unchanged, yet the chore still transitions to the
terminal status with `end` stamped.  (`NoAssignable` freezes the
subsequent assignment pass so the claim is about the report itself.) -/
theorem report_hits_payload_named_sailor
    (disp : String → Bool) (nameB chore_id statusP : String)
    (exit_code : Option Int) (now : Nat) (st : State) (c : Chore)
    (sA : String) (sB : Sailor)
    (hterm : statusP = "Done" ∨ statusP = "Canceled" ∨ statusP = "Failed")
    (hid : chore_id ≠ "") (hname : nameB ≠ "")
    (hc : lookupS st.chores chore_id = some c)
    (hsl : c.sailor = some sA)
    (hne : sA ≠ nameB)
    (hB : lookupS st.crew nameB = some sB)
    (hnp : NoAssignable st.chores) :
    lookupS ((sailor_report disp nameB chore_id statusP exit_code now st).2).crew nameB
      = some (releasedSailor sB (needCpus c) (needGpus c)) ∧
    lookupS ((sailor_report disp nameB chore_id statusP exit_code now st).2).crew sA
      = lookupS st.crew sA ∧
    (∃ c', lookupS ((sailor_report disp nameB chore_id statusP exit_code now st).2).chores chore_id
        = some c' ∧
       c'.status = pyLower statusP ∧ c'.end_ = some now ∧ c'.sailor = some sA) := by
  unfold sailor_report
  rw [if_neg (by simp [hid, hname])]
  rw [hc]
  dsimp only
  rw [if_pos hterm]
  rw [hB]
  dsimp only
  rw [try_assign_pending_id disp now _ _
    (noAssignable_insert hnp (Or.inl (by rw [hsl]; simp)))]
  dsimp only
  refine ⟨lookupS_insertS_self _ _ _, lookupS_insertS_ne _ _ _ _ (fun hx => hne hx.symm), ?_⟩
  refine ⟨_, lookupS_insertS_self _ _ _, rfl, rfl, hsl⟩


/-- C10: a `user_cancel` on an existing chore whose `sailor` field names
a sailor absent from the crew store returns ok, changes nothing, and
emits no cancel POST — the chore is neither marked `cancel_requested` nor
`canceled`. -/
theorem cancel_unknown_sailor_noop
    (chore_id : String) (reason : Option String) (now : Nat) (st : State)
    (c : Chore) (sn : String)
    (hid : chore_id ≠ "")
    (hc : lookupS st.chores chore_id = some c)
    (hsl : c.sailor = some sn)
    (habsent : lookupS st.crew sn = none) :
    user_cancel chore_id reason now st = (ApiResult.ok, st, []) := by
  unfold user_cancel
  rw [if_neg hid, hc]
  dsimp only
  rw [hsl]
  dsimp only
  rw [habsent]

/-- C7 (amended): `sailor_register` on a preregistered name updates the
capacity (`cpus`, `gpus`, `ram`) and `port` from the payload, sets
`last_seen = now`, resets the used counters to zero and the status to
`idle`, but keeps the record's preregistered `ip`, `services` and
`max_time` (the payload `ip` is ignored for an existing record); a
register call for a name not in the crew store fails with 403 and changes
nothing. -/
theorem register_semantics
    (disp : String → Bool) (name ip : String) (port cpus : Nat)
    (gpus : List Gpu) (ram : Nat) (now : Nat) (st : State)
    (hname : name ≠ "") (hip : ip ≠ "") :
    (lookupS st.crew name = none →
      sailor_register disp name ip port cpus gpus ram now st = (ApiResult.err 403, st)) ∧
    (∀ s, lookupS st.crew name = some s → NoAssignable st.chores →
      sailor_register disp name ip port cpus gpus ram now st =
        (ApiResult.ok, { st with crew := insertS st.crew name { s with
          name := name
          port := some port
          cpus := cpus
          gpus := gpus
          ram := ram
          last_seen := now
          status := "idle"
          used_cpus := 0
          used_gpus := 0 } })) := by
  constructor
  · intro habs
    unfold sailor_register
    rw [if_neg (by simp [hname, hip]), habs]
  · intro s hs hna
    unfold sailor_register
    rw [if_neg (by simp [hname, hip]), hs]
    dsimp only
    rw [try_assign_pending_id disp now _ _ hna]

/-- C7 counterexample: register does not take `ip` from the payload. -/
theorem register_keeps_prereg_ip :
    (lookupS ((sailor_register (fun _ => true) "alpha" "5.6.7.8" 9001 8 [] 64 100
        ((preregister_sailor "alpha" "1.2.3.4" [] none initState).2)).2).crew
      "alpha").map Sailor.ip = some "1.2.3.4" := by
  decide


/-! ## Witness fixtures -/

/-- An idle preregistered-and-registered sailor used by witnesses. -/
def wsail : Sailor :=
  { name := "a", ip := "1.1.1.1", port := some 8001, services := [], cpus := 4,
    gpus := [], ram := 0, used_cpus := 0, used_gpus := 0, last_seen := 95,
    status := "idle", max_time := none }

/-- A pending one-CPU chore used by witnesses. -/
def wchore : Chore :=
  { chore_id := "c1", script := "/x.sh", service := none, ressources := ⟨1, 0⟩,
    sailor := none, owner := 5, status := "pending", start := 90, reason := none,
    assigned_at := none, run_start := none, cancel_requested_at := none,
    cancel_source := none, end_ := none, terminated_at := none, exit_code := none }

theorem rollback_on_dispatch_failure_witness :
    (∃ b', lookupS (assignStep (fun _ => false) 100 ([("a", wsail)], [("c1", wchore)]) "c1").1
        wsail.name = some b' ∧
       b'.used_cpus = wsail.used_cpus ∧ b'.used_gpus = wsail.used_gpus) ∧
    lookupS (assignStep (fun _ => false) 100 ([("a", wsail)], [("c1", wchore)]) "c1").2
        wchore.chore_id =
      some { wchore with sailor := none, status := "pending",
                         reason := some "sailor unreachable", assigned_at := some 100 } :=
  rollback_on_dispatch_failure (fun _ => false) 100 [("a", wsail)] [("c1", wchore)]
    "c1" wchore 3 wsail (by decide) (by decide) (by decide) (by decide) (by decide)

/-- A busy sailor holding two reserved CPUs, target of the misdirected
report witness. -/
def wsailB : Sailor :=
  { wsail with name := "b", ip := "2.2.2.2", used_cpus := 2, status := "busy" }

/-- The witness chore as assigned to sailor `a` and running. -/
def wchoreA : Chore := { wchore with sailor := some "a", status := "running" }

theorem report_hits_payload_named_sailor_witness :
    lookupS ((sailor_report (fun _ => false) "b" "c1" "Done" none 100
        ⟨[("a", wsail), ("b", wsailB)], [("c1", wchoreA)], []⟩).2).crew "b"
      = some (releasedSailor wsailB (needCpus wchoreA) (needGpus wchoreA)) ∧
    lookupS ((sailor_report (fun _ => false) "b" "c1" "Done" none 100
        ⟨[("a", wsail), ("b", wsailB)], [("c1", wchoreA)], []⟩).2).crew "a"
      = lookupS (⟨[("a", wsail), ("b", wsailB)], [("c1", wchoreA)], []⟩ : State).crew "a" ∧
    (∃ c', lookupS ((sailor_report (fun _ => false) "b" "c1" "Done" none 100
        ⟨[("a", wsail), ("b", wsailB)], [("c1", wchoreA)], []⟩).2).chores "c1"
        = some c' ∧
       c'.status = pyLower "Done" ∧ c'.end_ = some 100 ∧ c'.sailor = some "a") :=
  report_hits_payload_named_sailor (fun _ => false) "b" "c1" "Done" none 100
    ⟨[("a", wsail), ("b", wsailB)], [("c1", wchoreA)], []⟩ wchoreA "a" wsailB
    (Or.inl rfl) (by decide) (by decide) (by decide) (by decide) (by decide)
    (by decide) (by decide)

/-- The witness chore as assigned to a sailor that is not in the crew. -/
def wchoreG : Chore := { wchore with sailor := some "ghost", status := "running" }

theorem cancel_unknown_sailor_noop_witness :
    user_cancel "c1" none 100 ⟨[("a", wsail)], [("c1", wchoreG)], []⟩ =
      (ApiResult.ok, ⟨[("a", wsail)], [("c1", wchoreG)], []⟩, []) :=
  cancel_unknown_sailor_noop "c1" none 100 ⟨[("a", wsail)], [("c1", wchoreG)], []⟩
    wchoreG "ghost" (by decide) (by decide) (by decide) (by decide)

/-- A preregistered-only sailor record (as written by `/prereg`). -/
def wsailPre : Sailor :=
  { name := "alpha", ip := "1.2.3.4", port := none, services := ["gpu"], cpus := 0,
    gpus := [], ram := 0, used_cpus := 0, used_gpus := 0, last_seen := 0,
    status := "down", max_time := none }

theorem register_semantics_witness :
    sailor_register (fun _ => true) "alpha" "9.9.9.9" 9001 8 [] 64 100
        ⟨[("alpha", wsailPre)], [], []⟩ =
      (ApiResult.ok, ⟨insertS [("alpha", wsailPre)] "alpha" { wsailPre with
        name := "alpha", port := some 9001, cpus := 8, gpus := [], ram := 64,
        last_seen := 100, status := "idle", used_cpus := 0, used_gpus := 0 }, [], []⟩) :=
  (register_semantics (fun _ => true) "alpha" "9.9.9.9" 9001 8 [] 64 100
    ⟨[("alpha", wsailPre)], [], []⟩ (by decide) (by decide)).2 wsailPre
    (by decide) (by decide)

theorem pySplitOnce_of_not_mem {sep : Char} {cs : List Char} (h : sep ∉ cs) :
    pySplitOnce sep cs = none := by
  induction cs with
  | nil => rfl
  | cons c rest ih =>
    rw [pySplitOnce]
    rw [if_neg (by intro hc; exact h (hc ▸ List.mem_cons_self _ _))]
    rw [ih (fun hm => h (List.mem_cons_of_mem _ hm))]

theorem pySplitOnce_append {sep : Char} {a : List Char} (b : List Char)
    (h : sep ∉ a) : pySplitOnce sep (a ++ sep :: b) = some (a, b) := by
  induction a with
  | nil => simp [pySplitOnce]
  | cons c rest ih =>
    rw [List.cons_append, pySplitOnce]
    rw [if_neg (by intro hc; exact h (hc ▸ List.mem_cons_self _ _))]
    rw [ih (fun hm => h (List.mem_cons_of_mem _ hm))]

theorem pySplitAll_of_not_mem {sep : Char} {a : List Char} (h : sep ∉ a) :
    pySplitAll sep a = [a] := by
  induction a with
  | nil => rfl
  | cons c rest ih =>
    rw [pySplitAll]
    rw [if_neg (by intro hc; exact h (hc ▸ List.mem_cons_self _ _))]
    rw [ih (fun hm => h (List.mem_cons_of_mem _ hm))]

theorem pySplitAll_append {sep : Char} {a : List Char} (b : List Char)
    (h : sep ∉ a) : pySplitAll sep (a ++ sep :: b) = a :: pySplitAll sep b := by
  induction a with
  | nil => simp [pySplitAll]
  | cons c rest ih =>
    rw [List.cons_append, pySplitAll]
    rw [if_neg (by intro hc; exact h (hc ▸ List.mem_cons_self _ _))]
    rw [ih (fun hm => h (List.mem_cons_of_mem _ hm))]


/-- C8 (amended): the duration parser maps every `DD-hh:mm:ss` and
`hh:mm:ss` string (numeric fields in the sense of Python `int`) to
`days*86400 + hh*3600 + mm*60 + ss` seconds and missing input to 0, but
it does not reject everything outside that grammar: any colon-separated
list of ints is accepted, with fewer than three fields padded on the left
with zeros (so `"45"` parses as 45 seconds, see the counterexample) and
only the last three fields used when more are given; inputs whose fields
fail integer parsing yield 0. -/
theorem parse_max_time_grammar
    (dcs hcs mcs scs : List Char) (d h m s : Int)
    (hd : pyIntChars dcs = some d) (hdn : '-' ∉ dcs)
    (hh : pyIntChars hcs = some h) (hhn : ':' ∉ hcs) (hhd : '-' ∉ hcs)
    (hm : pyIntChars mcs = some m) (hmn : ':' ∉ mcs) (hmd : '-' ∉ mcs)
    (hs : pyIntChars scs = some s) (hsn : ':' ∉ scs) (hsd : '-' ∉ scs) :
    _parse_max_time (some ⟨dcs ++ '-' :: (hcs ++ ':' :: (mcs ++ ':' :: scs))⟩) =
      d * 86400 + h * 3600 + m * 60 + s ∧
    _parse_max_time (some ⟨hcs ++ ':' :: (mcs ++ ':' :: scs)⟩) =
      h * 3600 + m * 60 + s ∧
    _parse_max_time none = 0 := by
  refine ⟨?_, ?_, rfl⟩
  · show parseChars (dcs ++ '-' :: (hcs ++ ':' :: (mcs ++ ':' :: scs))) = _
    unfold parseChars
    rw [if_neg (by simp)]
    rw [pySplitOnce_append _ hdn]
    dsimp only
    rw [hd]
    rw [pySplitAll_append _ hhn, pySplitAll_append _ hmn, pySplitAll_of_not_mem hsn]
    simp only [allInts, hh, hm, hs]
    norm_num [List.replicate]
  · show parseChars (hcs ++ ':' :: (mcs ++ ':' :: scs)) = _
    unfold parseChars
    rw [if_neg (by simp)]
    rw [pySplitOnce_of_not_mem (by
      simp only [List.mem_append, List.mem_cons]
      rintro (hx | hx | hx | hx | hx)
      · exact hhd hx
      · exact absurd hx (by decide)
      · exact hmd hx
      · exact absurd hx (by decide)
      · exact hsd hx)]
    dsimp only
    rw [pySplitAll_append _ hhn, pySplitAll_append _ hmn, pySplitAll_of_not_mem hsn]
    simp only [allInts, hh, hm, hs]
    norm_num [List.replicate]


theorem parse_max_time_grammar_witness :
    _parse_max_time (some ⟨['0','1'] ++ '-' :: (['0','2'] ++ ':' :: (['0','3'] ++ ':' :: ['0','4']))⟩) =
      1 * 86400 + 2 * 3600 + 3 * 60 + 4 ∧
    _parse_max_time (some ⟨['0','2'] ++ ':' :: (['0','3'] ++ ':' :: ['0','4'])⟩) =
      2 * 3600 + 3 * 60 + 4 ∧
    _parse_max_time none = 0 :=
  parse_max_time_grammar ['0','1'] ['0','2'] ['0','3'] ['0','4'] 1 2 3 4
    (by decide) (by decide) (by decide) (by decide) (by decide)
    (by decide) (by decide) (by decide) (by decide) (by decide) (by decide)

/-- C8 counterexample: `"45"` matches neither `DD-hh:mm:ss` nor
`hh:mm:ss`, so the claim requires `_parse_max_time` to map it to 0
(disabled); the code maps it to 45 seconds. -/
theorem parse_max_time_accepts_nongrammar :
    _parse_max_time (some "45") = 45 ∧ (45 : Int) ≠ 0 := by
  constructor
  · rfl
  · decide

/-- Total charged duration of a list of budget items. -/
def sumDurs (items : List (String × Chore × Int)) : Int :=
  (items.map (fun it => it.2.2)).sum

/-- C5 (amended): the per-user time-budget walk over the T0-sorted items
is greedy — a chore is kept whenever its duration still fits within the
remaining budget (`total + dur <= limit`) and marked for cancellation
otherwise, so chores *after* the first excess may still be kept; every
item ends up either kept or canceled, and when the total duration fits
the limit nothing is canceled (the oldest chores within budget are
protected). -/
theorem walkBudget_greedy (limit : Int) :
    ∀ (items : List (String × Chore × Int)) (total : Int),
      ((∀ it ∈ items, it.1 ∈ (walkBudget limit items total).1 ∨
         (it.1, it.2.1) ∈ (walkBudget limit items total).2) ∧
       (total + sumDurs items ≤ limit → (∀ it ∈ items, 0 ≤ it.2.2) →
         (walkBudget limit items total).2 = [])) := by
  intro items
  induction items with
  | nil =>
    intro total
    refine ⟨?_, fun _ _ => rfl⟩
    intro it h
    cases h
  | cons x rest ih =>
    intro total
    obtain ⟨cid, chore, dur⟩ := x
    constructor
    · intro it hit
      rw [walkBudget]
      rcases List.mem_cons.mp hit with h | h
      · by_cases hf : total + dur ≤ limit
        · rw [if_pos hf]
          left
          rw [h]
          exact List.mem_cons_self _ _
        · rw [if_neg hf]
          right
          rw [h]
          exact List.mem_cons_self _ _
      · by_cases hf : total + dur ≤ limit
        · rw [if_pos hf]
          rcases (ih (total + dur)).1 it h with h' | h'
          · exact Or.inl (List.mem_cons_of_mem _ h')
          · exact Or.inr h'
        · rw [if_neg hf]
          rcases (ih total).1 it h with h' | h'
          · exact Or.inl h'
          · exact Or.inr (List.mem_cons_of_mem _ h')
    · intro hfit hnn
      rw [walkBudget]
      have hdur : 0 ≤ dur := hnn (cid, chore, dur) (List.mem_cons_self _ _)
      have hrest : 0 ≤ sumDurs rest := by
        unfold sumDurs
        apply List.sum_nonneg
        intro y hy
        rw [List.mem_map] at hy
        obtain ⟨it, hit, rfl⟩ := hy
        exact hnn it (List.mem_cons_of_mem _ hit)
      have hsum : sumDurs ((cid, chore, dur) :: rest) = dur + sumDurs rest := by
        unfold sumDurs
        simp
      rw [hsum] at hfit
      rw [if_pos (by omega)]
      exact (ih (total + dur)).2 (by omega) (fun it hit => hnn it (List.mem_cons_of_mem _ hit))


theorem walkBudget_greedy_witness :
    ("A" ∈ (walkBudget 10 [("A", wchore, 7)] 0).1 ∨
      ("A", wchore) ∈ (walkBudget 10 [("A", wchore, 7)] 0).2) ∧
    (walkBudget 10 [("A", wchore, 7)] 0).2 = [] :=
  ⟨(walkBudget_greedy 10 [("A", wchore, 7)] 0).1 ("A", wchore, 7) (by decide),
   (walkBudget_greedy 10 [("A", wchore, 7)] 0).2 (by decide) (by decide)⟩

/-- A running chore of owner 7 on sailor `a`, with `run_start` given. -/
def bChore (cid : String) (rs : Nat) : Chore :=
  { chore_id := cid, script := "/x.sh", service := none, ressources := ⟨2, 0⟩,
    sailor := some "a", owner := 7, status := "running", start := rs,
    reason := none, assigned_at := some rs, run_start := some rs,
    cancel_requested_at := none, cancel_source := none, end_ := none,
    terminated_at := none, exit_code := none }

/-- A busy sailor `a` holding the three witness chores' reservations. -/
def bSail : Sailor :=
  { name := "a", ip := "1.1.1.1", port := some 8001, services := [], cpus := 8,
    gpus := [], ram := 0, used_cpus := 6, used_gpus := 0, last_seen := 100,
    status := "busy", max_time := none }

/-- Owner 7 with a 10-second time budget. -/
def bUser : UserRec := { uid := "7", name := none, time_limit := some "00:00:10",
                         chores_limit := none, notes := none }

/-- The three-chore time-budget state at `now = 100`: durations 7, 6, 2 in
T0 order. -/
def bState : State :=
  { crew := [("a", bSail)],
    chores := [("A", bChore "A" 93), ("B", bChore "B" 94), ("C", bChore "C" 98)],
    users := [("7", bUser)] }

/-- C5 counterexample: at `now = 100`, owner 7 has limit 10 s and running
chores A (T0 93, dur 7), B (T0 94, dur 6), C (T0 98, dur 2).  B is the
first chore whose inclusion exceeds the limit and is marked, but C —
subsequent to B in the ascending-T0 order — is kept (7 + 2 ≤ 10), so "the
first excess AND all subsequent chores are marked" is false on the
code. -/
theorem budget_pass_keeps_later_chore :
    (lookupS (cleanup_iteration 100 bState).1.chores "B").map Chore.status =
      some "cancel_requested" ∧
    (lookupS (cleanup_iteration 100 bState).1.chores "B").map Chore.reason =
      some (some "exceeded user time limit") ∧
    (lookupS (cleanup_iteration 100 bState).1.chores "B").map Chore.cancel_source =
      some (some "user_time_limit") ∧
    (lookupS (cleanup_iteration 100 bState).1.chores "C").map Chore.status =
      some "running" ∧
    choreT0Key 100 (bChore "B" 94) < choreT0Key 100 (bChore "C" 98) := by
  refine ⟨by decide, by decide, by decide, by decide, by decide⟩


theorem markUserBudgetCancel_no_post (now : Nat) (crew : List (String × Sailor))
    (acc : List (String × Chore) × List NetPost) (pc : String × Chore) :
    (markUserBudgetCancel now crew acc pc).2 = acc.2 := by
  unfold markUserBudgetCancel
  dsimp only
  rw [if_neg (by decide)]

theorem cleanupUserBudget_no_posts (now : Nat) (users : List (String × UserRec))
    (crew : List (String × Sailor)) (chores : List (String × Chore)) :
    (cleanupUserBudget now users crew chores).2 = [] := by
  unfold cleanupUserBudget
  have hmark : ∀ (cancel : List (String × Chore))
      (acc : List (String × Chore) × List NetPost),
      (cancel.foldl (markUserBudgetCancel now crew) acc).2 = acc.2 := by
    intro cancel
    induction cancel with
    | nil => intro acc; rfl
    | cons pc rest ih =>
      intro acc
      rw [List.foldl_cons, ih, markUserBudgetCancel_no_post]
  have hgrp : ∀ (groups : List (Nat × List (String × Chore × Int)))
      (acc : List (String × Chore) × List NetPost),
      (groups.foldl (fun (acc : List (String × Chore) × List NetPost)
          (grp : Nat × List (String × Chore × Int)) =>
        let limit :=
          match lookupS users (toString grp.1) with
          | some u => _parse_max_time u.time_limit
          | none => _parse_max_time none
        if limit ≤ 0 then acc
        else
          let sorted := pySorted (fun (it : String × Chore × Int) => choreT0Key now it.2.1) grp.2
          let cancel := (walkBudget limit sorted 0).2
          cancel.foldl (markUserBudgetCancel now crew) acc) acc).2 = acc.2 := by
    intro groups
    induction groups with
    | nil => intro acc; rfl
    | cons g rest ih =>
      intro acc
      rw [List.foldl_cons, ih]
      dsimp only
      split
      · rfl
      · rw [hmark]
  exact hgrp _ _


/-- C4 (code-bug evidence): the per-user time-budget pass persists the
`cancel_requested` state but can never issue the follow-up cancel POST —
its notify guard tests the status it has just overwritten to
`cancel_requested`, so `cleanupUserBudget` returns an empty post list on
*every* input; concretely, the over-budget chore B (assigned to sailor
`a`, which is present in the crew store) is marked while the whole
cleanup iteration emits no POST. -/
theorem user_budget_pass_posts_nothing :
    (∀ (now : Nat) (users : List (String × UserRec)) (crew : List (String × Sailor))
       (chores : List (String × Chore)),
       (cleanupUserBudget now users crew chores).2 = []) ∧
    ((lookupS (cleanup_iteration 100 bState).1.chores "B").map Chore.status =
        some "cancel_requested" ∧
      (lookupS bState.crew "a").isSome = true ∧
      (lookupS bState.chores "B").map Chore.sailor = some (some "a") ∧
      (cleanup_iteration 100 bState).2 = []) :=
  ⟨cleanupUserBudget_no_posts, by decide, by decide, by decide, by decide⟩

/-! ## Claim C2: well-formedness of the chores store -/

/-- The store's keys are distinct (true of every store built by
`insertS`/`eraseS` from the empty dict). -/
def NoDupKeys {α : Type} (m : List (String × α)) : Prop :=
  (m.map Prod.fst).Nodup

/-- Every chore is stored under its own `chore_id`. -/
def KeysMatch (chores : List (String × Chore)) : Prop :=
  ∀ p ∈ chores, p.2.chore_id = p.1

/-- `end` is set iff the (raw) status is terminal. -/
def EndIffTerminal (chores : List (String × Chore)) : Prop :=
  ∀ p ∈ chores, (TERMINAL_STATUSES.contains p.2.status = true ↔ p.2.end_ ≠ none)

/-- The chores-store invariant of claim C2. -/
def ChoresWF (chores : List (String × Chore)) : Prop :=
  NoDupKeys chores ∧ KeysMatch chores ∧ EndIffTerminal chores

theorem keys_insertS {α : Type} (m : List (String × α)) (k : String) (v : α) :
    ((insertS m k v).map Prod.fst = m.map Prod.fst) ∨
    ((insertS m k v).map Prod.fst = m.map Prod.fst ++ [k] ∧ k ∉ m.map Prod.fst) := by
  induction m with
  | nil => right; simp [insertS]
  | cons q rest ih =>
    rw [insertS]
    by_cases hk : q.1 = k
    · left; simp [hk]
    · rcases ih with h | ⟨h, hnm⟩
      · left; simp [hk, h]
      · right
        constructor
        · simp [hk, h]
        · simp only [List.map_cons, List.mem_cons]
          rintro (he | hm)
          · exact hk he.symm
          · exact hnm hm

theorem noDupKeys_insertS {α : Type} {m : List (String × α)} (k : String) (v : α)
    (h : NoDupKeys m) : NoDupKeys (insertS m k v) := by
  unfold NoDupKeys at h ⊢
  rcases keys_insertS m k v with he | ⟨he, hnm⟩
  · rw [he]; exact h
  · rw [he]
    apply List.Nodup.append h (List.nodup_singleton k)
    intro a ha hb
    rw [List.mem_singleton] at hb
    exact hnm (hb ▸ ha)

theorem noDupKeys_eraseS {α : Type} {m : List (String × α)} (k : String)
    (h : NoDupKeys m) : NoDupKeys (eraseS m k) := by
  unfold NoDupKeys at h ⊢
  induction m with
  | nil => simp [eraseS]
  | cons q rest ih =>
    rw [eraseS]
    simp only [List.map_cons, List.nodup_cons] at h
    by_cases hk : q.1 = k
    · simp only [hk, if_true]
      exact h.2
    · simp only [hk, if_false, List.map_cons, List.nodup_cons]
      refine ⟨fun hm => ?_, ih h.2⟩
      have : q.1 ∈ rest.map Prod.fst := by
        clear ih h
        induction rest with
        | nil => simp [eraseS] at hm
        | cons r rs ihr =>
          rw [eraseS] at hm
          by_cases hr : r.1 = k
          · simp only [hr, if_true] at hm
            simp [hm]
          · simp only [hr, if_false, List.map_cons, List.mem_cons] at hm
            rcases hm with h' | h'
            · simp [h']
            · simp [ihr h']
      exact h.1 this
    
theorem lookup_of_mem_nodup {α : Type} {m : List (String × α)} {k : String} {v : α}
    (hnd : NoDupKeys m) (hm : (k, v) ∈ m) : lookupS m k = some v := by
  induction m with
  | nil => cases hm
  | cons q rest ih =>
    unfold NoDupKeys at hnd
    simp only [List.map_cons, List.nodup_cons] at hnd
    rcases List.mem_cons.mp hm with he | hmem
    · rw [← he]
      simp [lookupS]
    · rw [lookupS]
      have hk : q.1 ≠ k := by
        intro he
        apply hnd.1
        rw [he]
        exact List.mem_map_of_mem Prod.fst hmem
      simp only [hk, if_false]
      exact ih hnd.2 hmem


/-- The four terminal statuses are lowercase, so `str.lower()` fixes
them. -/
theorem pyLower_of_terminal {s : String}
    (h : TERMINAL_STATUSES.contains s = true) : pyLower s = s := by
  have hm : s ∈ TERMINAL_STATUSES := by
    simpa using h
  unfold TERMINAL_STATUSES at hm
  simp only [List.mem_cons, List.mem_singleton, List.not_mem_nil, or_false] at hm
  rcases hm with rfl | rfl | rfl | rfl <;> decide

/-- If the lowercased status is not terminal, neither is the raw one. -/
theorem terminal_of_pyLower {s : String}
    (h : TERMINAL_STATUSES.contains (pyLower s) = false) :
    TERMINAL_STATUSES.contains s = false := by
  by_contra hc
  rw [Bool.not_eq_false] at hc
  rw [pyLower_of_terminal hc] at h
  rw [hc] at h
  cases h

/-- Nothing case-variant of `cancel_requested` is terminal. -/
theorem not_terminal_of_cancel_requested {s : String}
    (h : pyLower s = "cancel_requested") :
    TERMINAL_STATUSES.contains s = false := by
  by_contra hc
  rw [Bool.not_eq_false] at hc
  rw [pyLower_of_terminal hc] at h
  rw [h] at hc
  cases hc

theorem choresWF_insert {chores : List (String × Chore)} {cid : String} {c : Chore}
    (hwf : ChoresWF chores)
    (hk : c.chore_id = cid)
    (hiff : TERMINAL_STATUSES.contains c.status = true ↔ c.end_ ≠ none) :
    ChoresWF (insertS chores cid c) := by
  obtain ⟨h1, h2, h3⟩ := hwf
  refine ⟨noDupKeys_insertS cid c h1, ?_, ?_⟩
  · intro p hp
    rcases mem_insertS hp with h | h
    · exact h2 p h
    · rw [h]; exact hk
  · intro p hp
    rcases mem_insertS hp with h | h
    · exact h3 p h
    · rw [h]; exact hiff

theorem choresWF_erase {chores : List (String × Chore)} (cid : String)
    (hwf : ChoresWF chores) : ChoresWF (eraseS chores cid) := by
  obtain ⟨h1, h2, h3⟩ := hwf
  exact ⟨noDupKeys_eraseS cid h1, fun p hp => h2 p (mem_eraseS hp),
    fun p hp => h3 p (mem_eraseS hp)⟩

/-- The composable frame of one chores-store step: keys absent stay
absent, and a chore that is terminal keeps its exact record unless it is
purged. -/
def ChoreFrame (ch ch' : List (String × Chore)) : Prop :=
  ∀ k, (lookupS ch k = none → lookupS ch' k = none) ∧
    (∀ t, lookupS ch k = some t → TERMINAL_STATUSES.contains t.status = true →
      lookupS ch' k = none ∨ lookupS ch' k = some t)

theorem choreFrame_refl (ch : List (String × Chore)) : ChoreFrame ch ch :=
  fun _ => ⟨fun h => h, fun t h _ => Or.inr h⟩

theorem choreFrame_trans {a b c : List (String × Chore)}
    (h1 : ChoreFrame a b) (h2 : ChoreFrame b c) : ChoreFrame a c := by
  intro k
  constructor
  · intro hn
    exact ((h2 k).1 ((h1 k).1 hn))
  · intro t ht htt
    rcases (h1 k).2 t ht htt with hb | hb
    · exact Or.inl ((h2 k).1 hb)
    · exact (h2 k).2 t hb htt

/-- Overwriting a currently non-terminal binding preserves the frame. -/
theorem choreFrame_insert_nonterminal {ch : List (String × Chore)}
    {cid : String} {c0 : Chore} (c : Chore)
    (h0 : lookupS ch cid = some c0)
    (h0t : TERMINAL_STATUSES.contains c0.status = false) :
    ChoreFrame ch (insertS ch cid c) := by
  intro k
  constructor
  · intro hn
    have hk : cid ≠ k := by
      intro he
      rw [he] at h0
      rw [h0] at hn
      cases hn
    rw [lookupS_insertS_ne _ _ _ _ hk]
    exact hn
  · intro t ht htt
    have hk : cid ≠ k := by
      intro he
      rw [he, ht] at h0
      injection h0 with h'
      rw [h'] at htt
      have : TERMINAL_STATUSES.contains c0.status = true := by simpa using htt
      rw [this] at h0t
      cases h0t
    rw [lookupS_insertS_ne _ _ _ _ hk]
    exact Or.inr ht

theorem lookup_none_of_not_mem_keys {α : Type} {m : List (String × α)} {k : String}
    (h : k ∉ m.map Prod.fst) : lookupS m k = none := by
  induction m with
  | nil => rfl
  | cons q rest ih =>
    rw [lookupS]
    simp only [List.map_cons, List.mem_cons] at h
    push_neg at h
    rw [if_neg (fun he => h.1 he.symm)]
    exact ih h.2

theorem lookupS_eraseS_self {α : Type} {m : List (String × α)} {k : String}
    (hnd : NoDupKeys m) : lookupS (eraseS m k) k = none := by
  induction m with
  | nil => rfl
  | cons q rest ih =>
    unfold NoDupKeys at hnd
    simp only [List.map_cons, List.nodup_cons] at hnd
    rw [eraseS]
    by_cases hk : q.1 = k
    · rw [if_pos hk]
      exact lookup_none_of_not_mem_keys (hk ▸ hnd.1)
    · rw [if_neg hk, lookupS]
      rw [if_neg hk]
      exact ih hnd.2

theorem choreFrame_erase {ch : List (String × Chore)} (cid : String)
    (hnd : NoDupKeys ch) : ChoreFrame ch (eraseS ch cid) := by
  intro k
  by_cases hk : cid = k
  · subst hk
    constructor
    · intro _
      exact lookupS_eraseS_self hnd
    · intro t _ _
      exact Or.inl (lookupS_eraseS_self hnd)
  · constructor
    · intro hn
      rw [lookupS_eraseS_ne _ _ _ hk]
      exact hn
    · intro t ht _
      rw [lookupS_eraseS_ne _ _ _ hk]
      exact Or.inr ht


theorem end_none_of_nonterminal {chores : List (String × Chore)}
    (h3 : EndIffTerminal chores) {cid : String} {c : Chore}
    (hl : lookupS chores cid = some c)
    (ht : TERMINAL_STATUSES.contains c.status = false) : c.end_ = none := by
  have hiff := h3 (cid, c) (lookupS_mem hl)
  by_contra hne
  rw [hiff.mpr hne] at ht
  cases ht

theorem assignStep_choresWF (disp : String → Bool) (now : Nat)
    (st : List (String × Sailor) × List (String × Chore)) (cid : String)
    (h : ChoresWF st.2) :
    ChoresWF (assignStep disp now st cid).2 ∧
      ChoreFrame st.2 (assignStep disp now st cid).2 := by
  unfold assignStep
  dsimp only
  split
  · exact ⟨h, choreFrame_refl _⟩
  next chore hl =>
    split
    · exact ⟨h, choreFrame_refl _⟩
    next hsl =>
      split
      · exact ⟨h, choreFrame_refl _⟩
      next hst =>
        have hpend : chore.status = "pending" := by
          by_contra hc
          exact hst hc
        have hterm : TERMINAL_STATUSES.contains chore.status = false := by
          rw [hpend]; decide
        have hkey : chore.chore_id = cid := h.2.1 (cid, chore) (lookupS_mem hl)
        have hend : chore.end_ = none := end_none_of_nonterminal h.2.2 hl hterm
        split
        next sc sailor hb =>
          split
          · rw [hkey]
            refine ⟨choresWF_insert h rfl ?_, choreFrame_insert_nonterminal _ hl hterm⟩
            dsimp only
            rw [hend]
            simp [TERMINAL_STATUSES]
          · rw [hkey]
            refine ⟨choresWF_insert (choresWF_insert h rfl ?_) rfl ?_, ?_⟩
            · dsimp only
              rw [hend]
              simp [TERMINAL_STATUSES]
            · dsimp only
              rw [hend]
              simp [TERMINAL_STATUSES, hpend]
            · apply choreFrame_trans (choreFrame_insert_nonterminal _ hl hterm)
              apply choreFrame_insert_nonterminal _ (lookupS_insertS_self _ _ _)
              show TERMINAL_STATUSES.contains "assigned" = false
              decide
        · split
          · rw [hkey]
            refine ⟨choresWF_insert h rfl ?_, choreFrame_insert_nonterminal _ hl hterm⟩
            dsimp only
            rw [hend]
            simp [TERMINAL_STATUSES]
          · exact ⟨h, choreFrame_refl _⟩


theorem foldl_assignStep_choresWF (disp : String → Bool) (now : Nat) :
    ∀ (ids : List String) (st : List (String × Sailor) × List (String × Chore)),
      ChoresWF st.2 →
      ChoresWF ((ids.foldl (assignStep disp now) st).2) ∧
        ChoreFrame st.2 ((ids.foldl (assignStep disp now) st).2) := by
  intro ids
  induction ids with
  | nil => intro st h; exact ⟨h, choreFrame_refl _⟩
  | cons i rest ih =>
    intro st h
    obtain ⟨h1, h2⟩ := assignStep_choresWF disp now st i h
    obtain ⟨h3, h4⟩ := ih _ h1
    exact ⟨h3, choreFrame_trans h2 h4⟩

theorem try_assign_pending_choresWF (disp : String → Bool) (now : Nat)
    (crew : List (String × Sailor)) (chores : List (String × Chore))
    (h : ChoresWF chores) :
    ChoresWF (try_assign_pending disp now crew chores).2 ∧
      ChoreFrame chores (try_assign_pending disp now crew chores).2 :=
  foldl_assignStep_choresWF disp now _ (crew, chores) h


theorem maxTimeCheck_choresWF (now : Nat) (crew : List (String × Sailor))
    (chores : List (String × Chore)) (posts : List NetPost) (cid : String)
    (c : Chore) (hwf : ChoresWF chores) (hl : lookupS chores cid = some c) :
    ChoresWF (maxTimeCheck now crew chores posts cid c (pyLower c.status)).2.1 ∧
    ChoreFrame chores (maxTimeCheck now crew chores posts cid c (pyLower c.status)).2.1 ∧
    lookupS (maxTimeCheck now crew chores posts cid c (pyLower c.status)).2.1 cid =
      some (maxTimeCheck now crew chores posts cid c (pyLower c.status)).1 ∧
    (maxTimeCheck now crew chores posts cid c (pyLower c.status)).1.chore_id = c.chore_id ∧
    (maxTimeCheck now crew chores posts cid c (pyLower c.status)).1.end_ = c.end_ ∧
    ((maxTimeCheck now crew chores posts cid c (pyLower c.status)).1.status = c.status ∨
      (maxTimeCheck now crew chores posts cid c (pyLower c.status)).1.status = "cancel_requested") := by
  unfold maxTimeCheck
  dsimp only
  split
  next hnt =>
    rw [Bool.not_eq_true] at hnt
    have hterm : TERMINAL_STATUSES.contains c.status = false := terminal_of_pyLower hnt
    have hend : c.end_ = none := end_none_of_nonterminal hwf.2.2 hl hterm
    have hkey : c.chore_id = cid := hwf.2.1 (cid, c) (lookupS_mem hl)
    split
    · split
      · split
        · split
          · rw [hkey]
            refine ⟨choresWF_insert hwf rfl ?_, choreFrame_insert_nonterminal _ hl hterm,
              lookupS_insertS_self _ _ _, rfl, rfl, Or.inr rfl⟩
            dsimp only
            rw [hend]
            simp [TERMINAL_STATUSES]
          · exact ⟨hwf, choreFrame_refl _, hl, rfl, rfl, Or.inl rfl⟩
        · exact ⟨hwf, choreFrame_refl _, hl, rfl, rfl, Or.inl rfl⟩
      · exact ⟨hwf, choreFrame_refl _, hl, rfl, rfl, Or.inl rfl⟩
    · exact ⟨hwf, choreFrame_refl _, hl, rfl, rfl, Or.inl rfl⟩
  · exact ⟨hwf, choreFrame_refl _, hl, rfl, rfl, Or.inl rfl⟩


theorem finalizeCancel_choresWF (now : Nat) (crew : List (String × Sailor))
    (chores : List (String × Chore)) (posts : List NetPost) (cid : String)
    (c1 : Chore) (status : String)
    (hwf : ChoresWF chores) (hl : lookupS chores cid = some c1)
    (hnt : status = "cancel_requested" → TERMINAL_STATUSES.contains c1.status = false) :
    ChoresWF (finalizeCancel now crew chores posts cid c1 status).2.1 ∧
    ChoreFrame chores (finalizeCancel now crew chores posts cid c1 status).2.1 := by
  unfold finalizeCancel
  dsimp only
  split
  next hcr =>
    have hterm : TERMINAL_STATUSES.contains c1.status = false := hnt hcr
    have hend : c1.end_ = none := end_none_of_nonterminal hwf.2.2 hl hterm
    have hkey : c1.chore_id = cid := hwf.2.1 (cid, c1) (lookupS_mem hl)
    by_cases h0 : orNat c1.cancel_requested_at 0 = 0
    · simp only [h0, if_true, reduceIte]
      have hwf2 : ChoresWF
          (insertS chores cid { c1 with cancel_requested_at := some (choreT0Key now c1) }) := by
        refine choresWF_insert hwf hkey ?_
        show TERMINAL_STATUSES.contains c1.status = true ↔ c1.end_ ≠ none
        rw [hterm, hend]
        simp
      have hfr2 : ChoreFrame chores
          (insertS chores cid { c1 with cancel_requested_at := some (choreT0Key now c1) }) :=
        choreFrame_insert_nonterminal _ hl hterm
      have hl2 : lookupS (insertS chores cid { c1 with cancel_requested_at := some (choreT0Key now c1) }) cid
          = some { c1 with cancel_requested_at := some (choreT0Key now c1) } :=
        lookupS_insertS_self _ _ _
      split
      · constructor
        · refine choresWF_insert hwf2 hkey ?_
          show TERMINAL_STATUSES.contains "canceled" = true ↔ some now ≠ none
          simp [TERMINAL_STATUSES]
        · refine choreFrame_trans hfr2 ?_
          exact choreFrame_insert_nonterminal _ hl2 hterm
      · exact ⟨hwf2, hfr2⟩
    · simp only [h0, if_false, reduceIte]
      split
      · constructor
        · refine choresWF_insert hwf hkey ?_
          show TERMINAL_STATUSES.contains "canceled" = true ↔ some now ≠ none
          simp [TERMINAL_STATUSES]
        · exact choreFrame_insert_nonterminal _ hl hterm
      · exact ⟨hwf, choreFrame_refl _⟩
  · exact ⟨hwf, choreFrame_refl _⟩

theorem purgeCheck_choresWF (now : Nat) (chores : List (String × Chore))
    (cid : String) (c1 : Chore) (status : String) (hwf : ChoresWF chores) :
    ChoresWF (purgeCheck now chores cid c1 status) ∧
      ChoreFrame chores (purgeCheck now chores cid c1 status) := by
  unfold purgeCheck
  dsimp only
  split
  · split
    · exact ⟨choresWF_erase cid hwf, choreFrame_erase cid hwf.1⟩
    · exact ⟨hwf, choreFrame_refl _⟩
  · exact ⟨hwf, choreFrame_refl _⟩


theorem cleanupChoreStep_choresWF (now : Nat)
    (acc : List (String × Sailor) × List (String × Chore) × List NetPost)
    (cid : String) (hwf : ChoresWF acc.2.1) :
    ChoresWF (cleanupChoreStep now acc cid).2.1 ∧
      ChoreFrame acc.2.1 (cleanupChoreStep now acc cid).2.1 := by
  unfold cleanupChoreStep
  dsimp only
  split
  · exact ⟨hwf, choreFrame_refl _⟩
  next c hl =>
    obtain ⟨hwf1, hfr1, hl1, hkey1, hend1, hstat1⟩ :=
      maxTimeCheck_choresWF now acc.1 acc.2.1 acc.2.2 cid c hwf hl
    have hnt1 : pyLower c.status = "cancel_requested" →
        TERMINAL_STATUSES.contains (maxTimeCheck now acc.1 acc.2.1 acc.2.2 cid c
          (pyLower c.status)).1.status = false := by
      intro hcr
      rcases hstat1 with he | he
      · rw [he]
        exact not_terminal_of_cancel_requested hcr
      · rw [he]
        decide
    obtain ⟨hwf2, hfr2⟩ :=
      finalizeCancel_choresWF now acc.1
        (maxTimeCheck now acc.1 acc.2.1 acc.2.2 cid c (pyLower c.status)).2.1
        (maxTimeCheck now acc.1 acc.2.1 acc.2.2 cid c (pyLower c.status)).2.2 cid
        (maxTimeCheck now acc.1 acc.2.1 acc.2.2 cid c (pyLower c.status)).1
        (pyLower c.status) hwf1 hl1 hnt1
    obtain ⟨hwf3, hfr3⟩ :=
      purgeCheck_choresWF now
        (finalizeCancel now acc.1
          (maxTimeCheck now acc.1 acc.2.1 acc.2.2 cid c (pyLower c.status)).2.1
          (maxTimeCheck now acc.1 acc.2.1 acc.2.2 cid c (pyLower c.status)).2.2 cid
          (maxTimeCheck now acc.1 acc.2.1 acc.2.2 cid c (pyLower c.status)).1
          (pyLower c.status)).2.1 cid
        (maxTimeCheck now acc.1 acc.2.1 acc.2.2 cid c (pyLower c.status)).1
        (pyLower c.status) hwf2
    exact ⟨hwf3, choreFrame_trans hfr1 (choreFrame_trans hfr2 hfr3)⟩

theorem foldl_cleanupChoreStep_choresWF (now : Nat) :
    ∀ (ids : List String)
      (acc : List (String × Sailor) × List (String × Chore) × List NetPost),
      ChoresWF acc.2.1 →
      ChoresWF ((ids.foldl (cleanupChoreStep now) acc).2.1) ∧
        ChoreFrame acc.2.1 ((ids.foldl (cleanupChoreStep now) acc).2.1) := by
  intro ids
  induction ids with
  | nil => intro acc h; exact ⟨h, choreFrame_refl _⟩
  | cons i rest ih =>
    intro acc h
    obtain ⟨h1, h2⟩ := cleanupChoreStep_choresWF now acc i h
    obtain ⟨h3, h4⟩ := ih _ h1
    exact ⟨h3, choreFrame_trans h2 h4⟩


theorem mem_insByKey {α : Type} (key : α → Nat) (x y : α) :
    ∀ (l : List α), y ∈ insByKey key x l → y = x ∨ y ∈ l := by
  intro l
  induction l with
  | nil =>
    intro h
    rw [insByKey] at h
    rcases List.mem_cons.mp h with h | h
    · exact Or.inl h
    · cases h
  | cons z zs ih =>
    intro h
    rw [insByKey] at h
    split at h
    · rcases List.mem_cons.mp h with h | h
      · exact Or.inr (h ▸ List.mem_cons_self _ _)
      · rcases ih h with h' | h'
        · exact Or.inl h'
        · exact Or.inr (List.mem_cons_of_mem _ h')
    · rcases List.mem_cons.mp h with h | h
      · exact Or.inl h
      · exact Or.inr h

theorem mem_pySorted {α : Type} (key : α → Nat) :
    ∀ (l : List α) (y : α), y ∈ pySorted key l → y ∈ l := by
  intro l
  induction l with
  | nil => intro y h; cases h
  | cons z zs ih =>
    intro y h
    rw [pySorted, List.foldr_cons] at h
    rcases mem_insByKey key z y _ h with h' | h'
    · exact h' ▸ List.mem_cons_self _ _
    · exact List.mem_cons_of_mem _ (ih y h')

theorem walkBudget_cancel_src (limit : Int) :
    ∀ (items : List (String × Chore × Int)) (total : Int) (pc : String × Chore),
      pc ∈ (walkBudget limit items total).2 → ∃ d, (pc.1, pc.2, d) ∈ items := by
  intro items
  induction items with
  | nil => intro total pc h; cases h
  | cons x rest ih =>
    intro total pc h
    obtain ⟨cid, chore, dur⟩ := x
    rw [walkBudget] at h
    split at h
    · obtain ⟨d, hd⟩ := ih _ pc h
      exact ⟨d, List.mem_cons_of_mem _ hd⟩
    · rcases List.mem_cons.mp h with h' | h'
      · refine ⟨dur, ?_⟩
        rw [h']
        exact List.mem_cons_self _ _
      · obtain ⟨d, hd⟩ := ih _ pc h'
        exact ⟨d, List.mem_cons_of_mem _ hd⟩

/-- `x` occurs in one of the owner groups. -/
def inGroups {β : Type} (x : β) (m : List (Nat × List β)) : Prop :=
  ∃ g ∈ m, x ∈ g.2

theorem inGroups_addByOwner {β : Type} {x y : β} {o : Nat} :
    ∀ (m : List (Nat × List β)), inGroups x (addByOwner m o y) → inGroups x m ∨ x = y := by
  intro m
  induction m with
  | nil =>
    intro h
    obtain ⟨g, hg, hx⟩ := h
    rw [addByOwner] at hg
    rcases List.mem_cons.mp hg with h' | h'
    · rw [h'] at hx
      rcases List.mem_cons.mp hx with h'' | h''
      · exact Or.inr h''
      · cases h''
    · cases h'
  | cons q rest ih =>
    intro h
    obtain ⟨g, hg, hx⟩ := h
    rw [addByOwner] at hg
    split at hg
    · rcases List.mem_cons.mp hg with h' | h'
      · rw [h'] at hx
        rcases List.mem_append.mp hx with h'' | h''
        · next he => exact Or.inl ⟨q, List.mem_cons_self _ _, h''⟩
        · exact Or.inr (List.mem_singleton.mp h'')
      · exact Or.inl ⟨g, List.mem_cons_of_mem _ h', hx⟩
    · rcases List.mem_cons.mp hg with h' | h'
      · exact Or.inl ⟨g, h' ▸ List.mem_cons_self _ _, h' ▸ hx⟩
      · rcases ih ⟨g, h', hx⟩ with h'' | h''
        · obtain ⟨g', hg', hx'⟩ := h''
          exact Or.inl ⟨g', List.mem_cons_of_mem _ hg', hx'⟩
        · exact Or.inr h''

theorem buildByOwner_src (now : Nat) (chores : List (String × Chore)) :
    ∀ (it : String × Chore × Int), inGroups it (buildByOwner now chores) →
      (it.1, it.2.1) ∈ chores ∧
        TERMINAL_STATUSES.contains (pyLower it.2.1.status) = false := by
  unfold buildByOwner
  suffices hgen : ∀ (l : List (String × Chore)) (acc : List (Nat × List (String × Chore × Int))),
      (∀ it, inGroups it acc →
        (it.1, it.2.1) ∈ chores ∧ TERMINAL_STATUSES.contains (pyLower it.2.1.status) = false) →
      (∀ p ∈ l, p ∈ chores) →
      ∀ it, inGroups it (l.foldl (fun m p =>
        if TERMINAL_STATUSES.contains (pyLower p.2.status) then m
        else addByOwner m p.2.owner
          (p.1, p.2, if pyLower p.2.status = "pending" then 0 else choreDur now p.2)) acc) →
      (it.1, it.2.1) ∈ chores ∧ TERMINAL_STATUSES.contains (pyLower it.2.1.status) = false by
    intro it h
    refine hgen chores [] ?_ (fun p hp => hp) it ?_
    · intro it' h'
      obtain ⟨g, hg, -⟩ := h'
      cases hg
    · exact h
  intro l
  induction l with
  | nil =>
    intro acc hacc _ it h
    exact hacc it h
  | cons p rest ih =>
    intro acc hacc hl it h
    rw [List.foldl_cons] at h
    by_cases hp : TERMINAL_STATUSES.contains (pyLower p.2.status) = true
    · rw [if_pos hp] at h
      exact ih acc hacc (fun q hq => hl q (List.mem_cons_of_mem _ hq)) it h
    · rw [if_neg hp] at h
      refine ih _ ?_ (fun q hq => hl q (List.mem_cons_of_mem _ hq)) it h
      intro it' h'
      rcases inGroups_addByOwner _ h' with h'' | h''
      · exact hacc it' h''
      · rw [h'']
        refine ⟨?_, ?_⟩
        · have := hl p (List.mem_cons_self _ _)
          simpa using this
        · simpa using hp


/-- Non-terminal bindings of the snapshot survive (possibly re-marked) as
non-terminal bindings. -/
def NontermPres (ch0 ch : List (String × Chore)) : Prop :=
  ∀ k c0, lookupS ch0 k = some c0 → TERMINAL_STATUSES.contains c0.status = false →
    ∃ c', lookupS ch k = some c' ∧ TERMINAL_STATUSES.contains c'.status = false

theorem markFold_choresWF (now : Nat) (crew : List (String × Sailor))
    (chores0 : List (String × Chore)) (hwf0 : ChoresWF chores0) :
    ∀ (cancel : List (String × Chore)) (acc : List (String × Chore) × List NetPost),
      (∀ pc ∈ cancel, lookupS chores0 pc.1 = some pc.2 ∧
        TERMINAL_STATUSES.contains pc.2.status = false) →
      ChoresWF acc.1 → ChoreFrame chores0 acc.1 → NontermPres chores0 acc.1 →
      ChoresWF ((cancel.foldl (markUserBudgetCancel now crew) acc).1) ∧
      ChoreFrame chores0 ((cancel.foldl (markUserBudgetCancel now crew) acc).1) ∧
      NontermPres chores0 ((cancel.foldl (markUserBudgetCancel now crew) acc).1) := by
  intro cancel
  induction cancel with
  | nil => intro acc _ h1 h2 h3; exact ⟨h1, h2, h3⟩
  | cons pc rest ih =>
    intro acc hsrc h1 h2 h3
    rw [List.foldl_cons]
    obtain ⟨hlk0, hnt0⟩ := hsrc pc (List.mem_cons_self _ _)
    have hend0 : pc.2.end_ = none := end_none_of_nonterminal hwf0.2.2 hlk0 hnt0
    have hkey0 : pc.2.chore_id = pc.1 := hwf0.2.1 (pc.1, pc.2) (lookupS_mem hlk0)
    obtain ⟨c', hc', hc'nt⟩ := h3 pc.1 pc.2 hlk0 hnt0
    have hmark : (markUserBudgetCancel now crew acc pc).1 =
        insertS acc.1 pc.1 { pc.2 with
          status := "cancel_requested"
          reason := some "exceeded user time limit"
          cancel_requested_at := some now
          cancel_source := some "user_time_limit" } := by
      unfold markUserBudgetCancel
      dsimp only
      rw [if_neg (by decide)]
    have hp2 : (markUserBudgetCancel now crew acc pc).2 = acc.2 :=
      markUserBudgetCancel_no_post now crew acc pc
    refine ih ((markUserBudgetCancel now crew acc pc).1, (markUserBudgetCancel now crew acc pc).2)
      (fun q hq => hsrc q (List.mem_cons_of_mem _ hq)) ?_ ?_ ?_
    · rw [hmark]
      refine choresWF_insert h1 hkey0 ?_
      show TERMINAL_STATUSES.contains "cancel_requested" = true ↔ pc.2.end_ ≠ none
      rw [hend0]
      simp [TERMINAL_STATUSES]
    · rw [hmark]
      exact choreFrame_trans h2 (choreFrame_insert_nonterminal _ hc' hc'nt)
    · rw [hmark]
      intro k c0 hk hknt
      by_cases hkk : pc.1 = k
      · subst hkk
        refine ⟨_, lookupS_insertS_self _ _ _, ?_⟩
        show TERMINAL_STATUSES.contains "cancel_requested" = false
        decide
      · obtain ⟨c'', hc'', hc''nt⟩ := h3 k c0 hk hknt
        rw [lookupS_insertS_ne _ _ _ _ hkk]
        exact ⟨c'', hc'', hc''nt⟩


theorem cleanupUserBudget_choresWF (now : Nat) (users : List (String × UserRec))
    (crew : List (String × Sailor)) (chores0 : List (String × Chore))
    (hwf0 : ChoresWF chores0) :
    ChoresWF (cleanupUserBudget now users crew chores0).1 ∧
      ChoreFrame chores0 (cleanupUserBudget now users crew chores0).1 := by
  unfold cleanupUserBudget
  have hsrcAll : ∀ g ∈ buildByOwner now chores0, ∀ pc ∈ (walkBudget
      (match lookupS users (toString g.1) with
        | some u => _parse_max_time u.time_limit
        | none => _parse_max_time none)
      (pySorted (fun it => choreT0Key now it.2.1) g.2) 0).2,
      lookupS chores0 pc.1 = some pc.2 ∧
        TERMINAL_STATUSES.contains pc.2.status = false := by
    intro g hg pc hpc
    obtain ⟨d, hd⟩ := walkBudget_cancel_src _ _ _ pc hpc
    have hmem := mem_pySorted (fun it => choreT0Key now it.2.1) g.2 _ hd
    obtain ⟨hin, hnt⟩ := buildByOwner_src now chores0 (pc.1, pc.2, d) ⟨g, hg, hmem⟩
    exact ⟨lookup_of_mem_nodup hwf0.1 hin, terminal_of_pyLower hnt⟩
  have hrun : ∀ (groups : List (Nat × List (String × Chore × Int)))
      (acc : List (String × Chore) × List NetPost),
      (∀ g ∈ groups, ∀ pc ∈ (walkBudget
        (match lookupS users (toString g.1) with
          | some u => _parse_max_time u.time_limit
          | none => _parse_max_time none)
        (pySorted (fun it => choreT0Key now it.2.1) g.2) 0).2,
        lookupS chores0 pc.1 = some pc.2 ∧
          TERMINAL_STATUSES.contains pc.2.status = false) →
      ChoresWF acc.1 → ChoreFrame chores0 acc.1 → NontermPres chores0 acc.1 →
      ChoresWF ((groups.foldl (fun (acc : List (String × Chore) × List NetPost)
          (grp : Nat × List (String × Chore × Int)) =>
        let limit :=
          match lookupS users (toString grp.1) with
          | some u => _parse_max_time u.time_limit
          | none => _parse_max_time none
        if limit ≤ 0 then acc
        else
          let sorted := pySorted (fun (it : String × Chore × Int) => choreT0Key now it.2.1) grp.2
          let cancel := (walkBudget limit sorted 0).2
          cancel.foldl (markUserBudgetCancel now crew) acc) acc).1) ∧
      ChoreFrame chores0 ((groups.foldl (fun (acc : List (String × Chore) × List NetPost)
          (grp : Nat × List (String × Chore × Int)) =>
        let limit :=
          match lookupS users (toString grp.1) with
          | some u => _parse_max_time u.time_limit
          | none => _parse_max_time none
        if limit ≤ 0 then acc
        else
          let sorted := pySorted (fun (it : String × Chore × Int) => choreT0Key now it.2.1) grp.2
          let cancel := (walkBudget limit sorted 0).2
          cancel.foldl (markUserBudgetCancel now crew) acc) acc).1) := by
    intro groups
    induction groups with
    | nil => intro acc _ h1 h2 _; exact ⟨h1, h2⟩
    | cons g rest ih =>
      intro acc hsrc h1 h2 h3
      rw [List.foldl_cons]
      dsimp only
      split
      · exact ih acc (fun q hq => hsrc q (List.mem_cons_of_mem _ hq)) h1 h2 h3
      · obtain ⟨m1, m2, m3⟩ := markFold_choresWF now crew chores0 hwf0 _ acc
          (hsrc g (List.mem_cons_self _ _)) h1 h2 h3
        exact ih _ (fun q hq => hsrc q (List.mem_cons_of_mem _ hq)) m1 m2 m3
  refine hrun (buildByOwner now chores0) (chores0, []) hsrcAll hwf0 (choreFrame_refl _) ?_
  intro k c0 hk hknt
  exact ⟨c0, hk, hknt⟩


/-- The frame of claim C2: a chore that is terminal keeps its exact
record (status, `end`, everything) until it is purged. -/
def TerminalFrame (ch ch' : List (String × Chore)) : Prop :=
  ∀ k t, lookupS ch k = some t → TERMINAL_STATUSES.contains t.status = true →
    lookupS ch' k = none ∨ lookupS ch' k = some t

theorem terminalFrame_of_choreFrame {ch ch' : List (String × Chore)}
    (h : ChoreFrame ch ch') : TerminalFrame ch ch' :=
  fun k t ht htt => (h k).2 t ht htt

/-- The chore targeted by the operation (if any) is not already
terminal. -/
def notTerminalAt (st : State) (cid : String) : Prop :=
  match lookupS st.chores cid with
  | some c => TERMINAL_STATUSES.contains c.status = false
  | none => True

instance (st : State) (cid : String) : Decidable (notTerminalAt st cid) := by
  unfold notTerminalAt
  cases lookupS st.chores cid with
  | none => exact Decidable.isTrue trivial
  | some c => exact instDecidableEqBool _ _

/-- An operation is *good* when it respects the wire protocol and does
not target an already-terminal chore: a report carries one of the four
protocol statuses and its chore (if present) is not terminal, a cancel's
chore (if present) is not terminal, and a submission's fresh chore id is
not already in use. -/
def goodOp (op : Op) (st : State) : Prop :=
  match op with
  | .report _ _ cid statusP _ _ =>
    (statusP = "Done" ∨ statusP = "Running" ∨ statusP = "Canceled" ∨ statusP = "Failed") ∧
      notTerminalAt st cid
  | .cancel cid _ _ => notTerminalAt st cid
  | .submit _ _ _ _ _ _ _ _ cid => lookupS st.chores cid = none
  | _ => True

instance (op : Op) (st : State) : Decidable (goodOp op st) := by
  cases op <;> dsimp only [goodOp] <;> infer_instance

/-- Every operation of the trace is good at its point of application. -/
def goodAux : State → List Op → Prop
  | _, [] => True
  | st, op :: rest => goodOp op st ∧ goodAux (applyOp op st) rest

instance instDecGoodAux : (st : State) → (ops : List Op) → Decidable (goodAux st ops)
  | _, [] => Decidable.isTrue trivial
  | st, op :: rest =>
    haveI := instDecGoodAux (applyOp op st) rest
    inferInstanceAs (Decidable (_ ∧ _))

def GoodTrace (ops : List Op) : Prop := goodAux initState ops

instance (ops : List Op) : Decidable (GoodTrace ops) :=
  inferInstanceAs (Decidable (goodAux initState ops))


theorem terminal3_pyLower {statusP : String}
    (h : statusP = "Done" ∨ statusP = "Canceled" ∨ statusP = "Failed") :
    TERMINAL_STATUSES.contains (pyLower statusP) = true := by
  rcases h with rfl | rfl | rfl <;> decide

theorem applyOp_choresWF (op : Op) (st : State) (hwf : ChoresWF st.chores)
    (hg : goodOp op st) :
    ChoresWF (applyOp op st).chores ∧
      TerminalFrame st.chores (applyOp op st).chores := by
  cases op with
  | prereg name ip services max_time =>
    unfold applyOp preregister_sailor
    dsimp only
    split
    · exact ⟨hwf, terminalFrame_of_choreFrame (choreFrame_refl _)⟩
    · exact ⟨hwf, terminalFrame_of_choreFrame (choreFrame_refl _)⟩
  | register disp name ip port cpus gpus ram now =>
    unfold applyOp sailor_register
    dsimp only
    split
    · exact ⟨hwf, terminalFrame_of_choreFrame (choreFrame_refl _)⟩
    split
    · exact ⟨hwf, terminalFrame_of_choreFrame (choreFrame_refl _)⟩
    · obtain ⟨h1, h2⟩ := try_assign_pending_choresWF disp now _ st.chores hwf
      exact ⟨h1, terminalFrame_of_choreFrame h2⟩
  | awake name now =>
    unfold applyOp sailor_awake
    dsimp only
    split
    · exact ⟨hwf, terminalFrame_of_choreFrame (choreFrame_refl _)⟩
    split
    · exact ⟨hwf, terminalFrame_of_choreFrame (choreFrame_refl _)⟩
    · exact ⟨hwf, terminalFrame_of_choreFrame (choreFrame_refl _)⟩
  | upsert uid uname time_limit chores_limit notes =>
    unfold applyOp user_upsert
    dsimp only
    exact ⟨hwf, terminalFrame_of_choreFrame (choreFrame_refl _)⟩
  | cleanup now =>
    unfold applyOp cleanup_iteration
    dsimp only
    obtain ⟨p1, p2⟩ := cleanupUserBudget_choresWF now st.users st.crew st.chores hwf
    obtain ⟨q1, q2⟩ := foldl_cleanupChoreStep_choresWF now
      ((cleanupUserBudget now st.users st.crew st.chores).1.map Prod.fst)
      (st.crew, (cleanupUserBudget now st.users st.crew st.chores).1,
        (cleanupUserBudget now st.users st.crew st.chores).2) p1
    exact ⟨q1, terminalFrame_of_choreFrame (choreFrame_trans p2 q2)⟩
  | submit disp uid0 script service cpus gpus owner now cid =>
    have hfresh : lookupS st.chores cid = none := hg
    unfold applyOp user_chore
    dsimp only
    split
    · exact ⟨hwf, terminalFrame_of_choreFrame (choreFrame_refl _)⟩
    have main : ∀ own : Nat,
        ChoresWF (try_assign_pending disp now st.crew (insertS st.chores cid
          { chore_id := cid, script := script, service := service,
            ressources := { cpus := if cpus = 0 then 1 else cpus, gpus := gpus },
            sailor := none, owner := own,
            status := "pending", start := now, reason := some "no available sailor",
            assigned_at := none, run_start := none, cancel_requested_at := none,
            cancel_source := none, end_ := none, terminated_at := none,
            exit_code := none })).2 ∧
        TerminalFrame st.chores (try_assign_pending disp now st.crew (insertS st.chores cid
          { chore_id := cid, script := script, service := service,
            ressources := { cpus := if cpus = 0 then 1 else cpus, gpus := gpus },
            sailor := none, owner := own,
            status := "pending", start := now, reason := some "no available sailor",
            assigned_at := none, run_start := none, cancel_requested_at := none,
            cancel_source := none, end_ := none, terminated_at := none,
            exit_code := none })).2 := by
      intro own
      have hwf1 : ChoresWF (insertS st.chores cid
          { chore_id := cid, script := script, service := service,
            ressources := { cpus := if cpus = 0 then 1 else cpus, gpus := gpus },
            sailor := none, owner := own,
            status := "pending", start := now, reason := some "no available sailor",
            assigned_at := none, run_start := none, cancel_requested_at := none,
            cancel_source := none, end_ := none, terminated_at := none,
            exit_code := none }) := by
        refine choresWF_insert hwf rfl ?_
        show TERMINAL_STATUSES.contains "pending" = true ↔ (none : Option Nat) ≠ none
        simp [TERMINAL_STATUSES]
      obtain ⟨h1, h2⟩ := try_assign_pending_choresWF disp now st.crew _ hwf1
      refine ⟨h1, ?_⟩
      intro k t ht htt
      have hk : cid ≠ k := by
        intro he
        rw [he, ht] at hfresh
        cases hfresh
      have hlk : lookupS (insertS st.chores cid
          { chore_id := cid, script := script, service := service,
            ressources := { cpus := if cpus = 0 then 1 else cpus, gpus := gpus },
            sailor := none, owner := own,
            status := "pending", start := now, reason := some "no available sailor",
            assigned_at := none, run_start := none, cancel_requested_at := none,
            cancel_source := none, end_ := none, terminated_at := none,
            exit_code := none }) k = some t := by
        rw [lookupS_insertS_ne _ _ _ _ hk]
        exact ht
      exact (h2 k).2 t hlk htt
    split <;> split
    · exact ⟨hwf, terminalFrame_of_choreFrame (choreFrame_refl _)⟩
    · exact main uid0
    · exact ⟨hwf, terminalFrame_of_choreFrame (choreFrame_refl _)⟩
    · exact main owner
  | cancel cid reason now =>
    unfold applyOp user_cancel
    dsimp only
    split
    · exact ⟨hwf, terminalFrame_of_choreFrame (choreFrame_refl _)⟩
    split
    · exact ⟨hwf, terminalFrame_of_choreFrame (choreFrame_refl _)⟩
    next c hl =>
      have hnt : TERMINAL_STATUSES.contains c.status = false := by
        have h2 := hg
        simp only [goodOp, notTerminalAt, hl] at h2
        exact h2
      have hend : c.end_ = none := end_none_of_nonterminal hwf.2.2 hl hnt
      have hkey : c.chore_id = cid := hwf.2.1 (cid, c) (lookupS_mem hl)
      split
      · split
        · refine ⟨choresWF_insert hwf hkey ?_,
            terminalFrame_of_choreFrame (choreFrame_insert_nonterminal _ hl hnt)⟩
          show TERMINAL_STATUSES.contains "cancel_requested" = true ↔ c.end_ ≠ none
          rw [hend]
          simp [TERMINAL_STATUSES]
        · exact ⟨hwf, terminalFrame_of_choreFrame (choreFrame_refl _)⟩
      · refine ⟨choresWF_insert hwf hkey ?_,
          terminalFrame_of_choreFrame (choreFrame_insert_nonterminal _ hl hnt)⟩
        show TERMINAL_STATUSES.contains "canceled" = true ↔ some now ≠ none
        simp [TERMINAL_STATUSES]
  | report disp name cid statusP exit_code now =>
    obtain ⟨hP, hntg⟩ := hg
    unfold applyOp sailor_report
    dsimp only
    split
    · exact ⟨hwf, terminalFrame_of_choreFrame (choreFrame_refl _)⟩
    split
    · exact ⟨hwf, terminalFrame_of_choreFrame (choreFrame_refl _)⟩
    next c hl =>
      have hnt : TERMINAL_STATUSES.contains c.status = false := by
        simp only [notTerminalAt, hl] at hntg
        exact hntg
      have hend : c.end_ = none := end_none_of_nonterminal hwf.2.2 hl hnt
      have hkey : c.chore_id = cid := hwf.2.1 (cid, c) (lookupS_mem hl)
      split
      next hterm3 =>
        have hwf1 : ChoresWF (insertS st.chores cid
            { c with status := pyLower statusP, end_ := some now, exit_code := exit_code,
                     reason := reportCancelReason
                       { c with status := pyLower statusP, end_ := some now,
                                exit_code := exit_code } }) := by
          refine choresWF_insert hwf hkey ?_
          show TERMINAL_STATUSES.contains (pyLower statusP) = true ↔ some now ≠ none
          rw [terminal3_pyLower hterm3]
          simp
        obtain ⟨h1, h2⟩ := try_assign_pending_choresWF disp now _ _ hwf1
        refine ⟨h1, terminalFrame_of_choreFrame ?_⟩
        exact choreFrame_trans (choreFrame_insert_nonterminal _ hl hnt) h2
      next hterm3 =>
        have hrun : statusP = "Running" := by
          rcases hP with h | h | h | h
          · exact absurd (Or.inl h) hterm3
          · exact h
          · exact absurd (Or.inr (Or.inl h)) hterm3
          · exact absurd (Or.inr (Or.inr h)) hterm3
        refine ⟨choresWF_insert hwf hkey ?_,
          terminalFrame_of_choreFrame (choreFrame_insert_nonterminal _ hl hnt)⟩
        show TERMINAL_STATUSES.contains (pyLower statusP) = true ↔ c.end_ ≠ none
        rw [hrun, hend]
        simp [TERMINAL_STATUSES, pyLower]


theorem goodAux_choresWF :
    ∀ (ops : List Op) (st : State), ChoresWF st.chores → goodAux st ops →
      ChoresWF ((ops.foldl (fun st op => applyOp op st) st).chores) := by
  intro ops
  induction ops with
  | nil => intro st h _; exact h
  | cons op rest ih =>
    intro st h hg
    rw [List.foldl_cons]
    exact ih _ (applyOp_choresWF op st h hg.1).1 hg.2

/-- C2 (amended): in any reachable state of a *good* trace — one whose
reports carry the protocol statuses `{Done, Running, Canceled, Failed}`
and never target an already-terminal chore, whose cancels never target an
already-terminal chore, and whose submissions use fresh chore ids — the
chores store satisfies `end` is set iff the status is terminal, and one
more good operation leaves every terminal chore either untouched (same
status, same `end`) or purged, so a chore reaches at most one terminal
status.  Without the goodness restriction the property fails on the code:
a later report overwrites a terminal status (see the counterexample). -/
theorem single_terminal_stability (ops : List Op) (op : Op)
    (hg : GoodTrace ops) (hop : goodOp op (runOps ops)) :
    ChoresWF (runOps ops).chores ∧
      TerminalFrame (runOps ops).chores (applyOp op (runOps ops)).chores := by
  have hwf : ChoresWF (runOps ops).chores := by
    rw [runOps]
    exact goodAux_choresWF ops initState ⟨List.nodup_nil, fun p hp => absurd hp (List.not_mem_nil p), fun p hp => absurd hp (List.not_mem_nil p)⟩ hg
  exact ⟨hwf, (applyOp_choresWF op (runOps ops) hwf hop).2⟩

theorem single_terminal_stability_witness :
    ChoresWF (runOps [Op.prereg "a" "1.1.1.1" [] none]).chores ∧
      TerminalFrame (runOps [Op.prereg "a" "1.1.1.1" [] none]).chores
        (applyOp (Op.cancel "c1" none 5) (runOps [Op.prereg "a" "1.1.1.1" [] none])).chores :=
  single_terminal_stability [Op.prereg "a" "1.1.1.1" [] none] (Op.cancel "c1" none 5)
    (by decide) (by decide)

/-- The counterexample trace: prereg + register a sailor, submit and
dispatch a chore, then report it `Done`. -/
def c2ops1 : List Op :=
  [Op.prereg "a" "1.1.1.1" ["svc"] none,
   Op.register (fun _ => true) "a" "1.1.1.1" 8001 4 [] 0 10,
   Op.submit (fun _ => true) 0 "/x.sh" none 1 0 7 12 "c1",
   Op.report (fun _ => true) "a" "c1" "Done" (some 0) 20]

/-- C2 counterexample: an API-call sequence (prereg, register, submit,
report `Done`, report `Failed`) under which chore `c1` reaches the
terminal status `done` and then a *second* terminal status `failed`, with
`end` re-stamped — refuting "exactly one terminal transition across its
whole lifetime" as stated over arbitrary call sequences. -/
theorem second_terminal_transition :
    (lookupS (runOps c2ops1).chores "c1").map Chore.status = some "done" ∧
    (lookupS (runOps (c2ops1 ++ [Op.report (fun _ => true) "a" "c1" "Failed" (some 1) 30])).chores
        "c1").map Chore.status = some "failed" ∧
    (lookupS (runOps (c2ops1 ++ [Op.report (fun _ => true) "a" "c1" "Failed" (some 1) 30])).chores
        "c1").map Chore.end_ = some (some 30) := by
  refine ⟨by decide, by decide, by decide⟩


/-- A busy sailor and a running two-CPU chore for the repeat-report
counterexample. -/
def rSail : Sailor :=
  { name := "a", ip := "1.1.1.1", port := some 8001, services := [], cpus := 8,
    gpus := [], ram := 0, used_cpus := 4, used_gpus := 0, last_seen := 0,
    status := "busy", max_time := none }

def rChore : Chore :=
  { chore_id := "c1", script := "/x.sh", service := none, ressources := ⟨2, 0⟩,
    sailor := some "a", owner := 5, status := "running", start := 40, reason := none,
    assigned_at := some 40, run_start := some 41, cancel_requested_at := none,
    cancel_source := none, end_ := none, terminated_at := none, exit_code := none }

def rSt1 : State :=
  (sailor_report (fun _ => false) "a" "c1" "Done" (some 0) 50
    ⟨[("a", rSail)], [("c1", rChore)], []⟩).2

def rSt2 : State := (sailor_report (fun _ => false) "a" "c1" "Done" (some 0) 60 rSt1).2

/-- C3 counterexample: a second `Done` report for the same chore_id is
processed again in full — the named sailor's used counters are
decremented a second time (4 → 2 → 0) and the chore's `end` is
re-stamped (50 → 60) — so repeated terminal reports do not leave the
state unchanged after the first. -/
theorem repeated_done_report_changes_state :
    (lookupS rSt1.crew "a").map Sailor.used_cpus = some 2 ∧
    (lookupS rSt2.crew "a").map Sailor.used_cpus = some 0 ∧
    (lookupS rSt1.chores "c1").map Chore.end_ = some (some 50) ∧
    (lookupS rSt2.chores "c1").map Chore.end_ = some (some 60) ∧
    rSt2 ≠ rSt1 := by
  refine ⟨by decide, by decide, by decide, by decide, by decide⟩

/-- C3 (amended): repeated terminal reports and repeated cancel requests
are idempotent only once the chore is gone from the store (as happens
after the TTL purge): a `sailor_report` for an unknown chore_id returns
ok and leaves the state unchanged, and a `user_cancel` for an unknown
chore_id (404) leaves the state unchanged.  While the terminal chore is
still stored, a repeated terminal report re-applies the clamped decrement
and re-stamps `end` (see the counterexample), and a repeated cancel
re-stamps the cancel fields. -/
theorem report_cancel_noop_when_absent
    (st : State) (disp : String → Bool) (name cid statusP : String)
    (ec : Option Int) (reason : Option String) (now now' : Nat)
    (h : lookupS st.chores cid = none) :
    (sailor_report disp name cid statusP ec now st).2 = st ∧
    (user_cancel cid reason now' st).2.1 = st := by
  constructor
  · unfold sailor_report
    split
    · rfl
    · rw [h]
  · unfold user_cancel
    split
    · rfl
    · rw [h]

theorem report_cancel_noop_when_absent_witness :
    (sailor_report (fun _ => false) "a" "gone" "Done" none 50
        ⟨[("a", rSail)], [("c1", rChore)], []⟩).2 =
      ⟨[("a", rSail)], [("c1", rChore)], []⟩ ∧
    (user_cancel "gone" none 60 ⟨[("a", rSail)], [("c1", rChore)], []⟩).2.1 =
      ⟨[("a", rSail)], [("c1", rChore)], []⟩ :=
  report_cancel_noop_when_absent ⟨[("a", rSail)], [("c1", rChore)], []⟩
    (fun _ => false) "a" "gone" "Done" none none 50 60 (by decide)

end Captain
